import Mathlib

/-!
Verification of the transition/suspense coordination subsystem of the
svelte-creative-template repository.

The development shallowly embeds the state and operations of five source
modules and proves the specified properties about them:

* `Portal`    — `src/lib/portal/core/PortalContext.svelte.ts`
* `Crossfade` — `src/lib/animation/core/Crossfade.ts`
* `HookM`     — `src/lib/hooks/core/Hook.ts`
* `Tween`     — `src/lib/animation/core/TweenTransition.svelte.ts`
* `Suspense`  — `src/lib/suspense/core/SuspenseContext.svelte.ts`

DOM nodes, task promises and predicate closures are represented by natural
number identifiers; external facts about them (attachment to the document,
viewport visibility, current predicate value) are supplied as explicit
environment functions.  Numeric quantities (progress ratios, delays,
durations) are rationals.  Reactive re-evaluation of Svelte `$effect` blocks
is modelled by running the effect body after every state mutation, and
timers are modelled explicitly: arming stores the computed wait, and a
dedicated event fires a pending timer.
-/

namespace Portal

/-- One tracked animation sample of `PortalContext._transitions`: an optional
DOM node plus the resolved delay and duration in milliseconds. -/
structure Sample where
  node : Option Nat := none
  delay : ℚ := 0
  duration : ℚ := 0
deriving DecidableEq

/-- State of a `PortalContext`: the list of recorded samples. -/
structure PortalContext where
  transitions : List Sample := []
deriving DecidableEq

/-- `trackAnimation` applied to a bare animation handle: the handle's delay and
duration are recorded unconditionally, with no node. -/
def trackAnimationHandle (ctx : PortalContext) (delay duration : ℚ) : PortalContext :=
  { ctx with transitions := ctx.transitions ++ [{ node := none, delay := delay, duration := duration }] }

/-- `trackAnimation` wrapping a declarative transition on `node`: the sample is
recorded only when the transition direction is not `in`. -/
def trackAnimationTransition (ctx : PortalContext) (node : Nat) (delay duration : ℚ)
    (dirIsIn : Bool) : PortalContext :=
  if dirIsIn then ctx
  else { ctx with transitions := ctx.transitions ++ [{ node := some node, delay := delay, duration := duration }] }

/-- Contribution of one sample to the keep-alive wait, as computed inside
`PortalContext.keepAlive`: `delay + duration` when the sample has no node or
its node is still connected to the document, `0` when the node is detached. -/
def sampleWait (connected : Nat → Bool) (s : Sample) : ℚ :=
  match s.node with
  | none => s.delay + s.duration
  | some n => if connected n then s.delay + s.duration else 0

/-- The body of the `keepAlive` transition: computes
`Math.max(0, ...contributions)` over the recorded samples and clears the
sample list.  Returns the computed duration and the drained context. -/
def keepAlive (connected : Nat → Bool) (ctx : PortalContext) : ℚ × PortalContext :=
  ((ctx.transitions.map (sampleWait connected)).foldl max 0, { transitions := [] })

/-- C4: `keepAlive` returns the maximum, floored at `0`, of `delay + duration`
over samples whose node is absent or still attached (a detached-node sample
contributes `0`), and clears the sample list, so an immediately following
invocation returns `0`; on the samples `[{delay 100, duration 200, attached},
{delay 0, duration 50, detached}]` the first call yields `300` and the second
yields `0`. -/
theorem keepAlive_drains_max_wait (connected : Nat → Bool) (ctx : PortalContext) :
    (keepAlive connected ctx).1 = (ctx.transitions.map (sampleWait connected)).foldl max 0
    ∧ (keepAlive connected ctx).2.transitions = []
    ∧ (keepAlive connected (keepAlive connected ctx).2).1 = 0
    ∧ (keepAlive (fun n => n == 0)
        { transitions := [{ node := some 0, delay := 100, duration := 200 },
                          { node := some 1, delay := 0, duration := 50 }] }).1 = 300
    ∧ (keepAlive (fun n => n == 0)
        (keepAlive (fun n => n == 0)
          { transitions := [{ node := some 0, delay := 100, duration := 200 },
                            { node := some 1, delay := 0, duration := 50 }] }).2).1 = 0 := by
  refine ⟨rfl, rfl, rfl, ?_, rfl⟩
  show ([sampleWait (fun n => n == 0) { node := some 0, delay := 100, duration := 200 },
         sampleWait (fun n => n == 0) { node := some 1, delay := 0, duration := 50 }]).foldl max 0 = 300
  norm_num [sampleWait]

end Portal

namespace Crossfade

/-- JS `Map.set` on a key-ordered association list: overwrite the value when
the key is present, otherwise append the binding. -/
def mapSet (m : List (String × Nat)) (k : String) (v : Nat) : List (String × Nat) :=
  if m.any (fun p => p.1 == k) then m.map (fun p => if p.1 == k then (k, v) else p)
  else m ++ [(k, v)]

/-- JS `Map.get`. -/
def mapGet (m : List (String × Nat)) (k : String) : Option Nat :=
  (m.find? (fun p => p.1 == k)).map (·.2)

/-- JS `Map.delete`. -/
def mapDelete (m : List (String × Nat)) (k : String) : List (String × Nat) :=
  m.filter (fun p => p.1 != k)

/-- The two key-indexed registries shared by a crossfade pair, mirroring
`Crossfade._toSend` and `Crossfade._toReceive`. -/
structure CfState where
  toSend : List (String × Nat) := []
  toReceive : List (String × Nat) := []
deriving DecidableEq

/-- Result of resolving one side of a crossfade transition: either the paired
callback ran with the item and its counterpart, or the fallback/empty
transition was produced. -/
inductive CfRes
  | paired (item counterpart : Nat)
  | fallbackRes
deriving DecidableEq

/-- Registration phase of the `send` transition returned by
`Crossfade._getTransition`: the node is stored in `toSend` under the key. -/
def registerSend (st : CfState) (k : String) (node : Nat) : CfState :=
  { st with toSend := mapSet st.toSend k node }

/-- Registration phase of the `receive` transition. -/
def registerReceive (st : CfState) (k : String) (node : Nat) : CfState :=
  { st with toReceive := mapSet st.toReceive k node }

/-- Resolution phase of the `send` transition: look up the counterpart in
`toReceive`; if present, consume it and, when `TweenTransition.validate`
(modelled by the `valid` oracle) accepts the node, run the paired callback;
otherwise abandon the own registration and fall back. -/
def resolveSend (valid : Nat → Bool) (st : CfState) (k : String) (node : Nat) : CfState × CfRes :=
  match mapGet st.toReceive k with
  | some target =>
    let st := { st with toReceive := mapDelete st.toReceive k }
    if valid node then (st, CfRes.paired node target)
    else ({ st with toSend := mapDelete st.toSend k }, CfRes.fallbackRes)
  | none => ({ st with toSend := mapDelete st.toSend k }, CfRes.fallbackRes)

/-- Resolution phase of the `receive` transition, symmetric to `resolveSend`. -/
def resolveReceive (valid : Nat → Bool) (st : CfState) (k : String) (node : Nat) : CfState × CfRes :=
  match mapGet st.toSend k with
  | some target =>
    let st := { st with toSend := mapDelete st.toSend k }
    if valid node then (st, CfRes.paired node target)
    else ({ st with toReceive := mapDelete st.toReceive k }, CfRes.fallbackRes)
  | none => ({ st with toReceive := mapDelete st.toReceive k }, CfRes.fallbackRes)

/-- The C3 scenario: starting from empty registries, register a send node `A`
and a receive node `B` under the same key (in either order), then resolve both
transitions (in either order).  Returns the final registries together with the
result of the send side and of the receive side. -/
def runScenario (k : String) (A B : Nat) (valid : Nat → Bool)
    (regSendFirst resSendFirst : Bool) : CfState × CfRes × CfRes :=
  let st := if regSendFirst then registerReceive (registerSend {} k A) k B
            else registerSend (registerReceive {} k B) k A
  if resSendFirst then
    let rs := resolveSend valid st k A
    let rr := resolveReceive valid rs.1 k B
    (rr.1, rs.2, rr.2)
  else
    let rr := resolveReceive valid st k B
    let rs := resolveSend valid rr.1 k A
    (rs.1, rs.2, rr.2)

/-- `mapSet` keeps the registry keys duplicate-free: each map holds at most one
waiting node per key. -/
theorem mapSet_keys_nodup (m : List (String × Nat)) (k : String) (v : Nat)
    (h : (m.map Prod.fst).Nodup) : ((mapSet m k v).map Prod.fst).Nodup := by
  unfold mapSet
  split
  case isTrue hany =>
    have hkeys : ∀ l : List (String × Nat),
        (l.map (fun p => if p.1 == k then (k, v) else p)).map Prod.fst = l.map Prod.fst := by
      intro l
      induction l with
      | nil => rfl
      | cons p t ih =>
        simp only [List.map_cons, ih]
        by_cases hpk : p.1 == k
        · have hk : p.1 = k := eq_of_beq hpk
          simp [hpk, hk]
        · simp [hpk]
    rw [hkeys]; exact h
  case isFalse hany =>
    rw [List.map_append, List.nodup_append]
    refine ⟨h, List.nodup_singleton k, ?_⟩
    intro a ha hb
    simp only [List.map_cons, List.map_nil, List.mem_singleton] at hb
    subst hb
    rcases List.mem_map.mp ha with ⟨p, hp, hfst⟩
    exact hany (List.any_eq_true.mpr ⟨p, hp, by simp [hfst]⟩)

/-- C3: registering a send node and a receive node under the same key, in
either registration order, and then resolving both transitions in either
order, produces exactly one paired invocation per side — the send callback
runs with `(A, B)` and the receive callback with `(B, A)` — and leaves both
registries empty afterward; moreover `mapSet` maintains at most one waiting
node per key in each registry. -/
theorem crossfade_pairs_once (k : String) (A B : Nat) (valid : Nat → Bool)
    (hA : valid A = true) (hB : valid B = true) (regSendFirst resSendFirst : Bool) :
    runScenario k A B valid regSendFirst resSendFirst
      = ({ toSend := [], toReceive := [] }, CfRes.paired A B, CfRes.paired B A)
    ∧ ((mapSet [] k A).map Prod.fst).Nodup := by
  constructor
  · cases regSendFirst <;> cases resSendFirst <;>
      simp [runScenario, registerSend, registerReceive, resolveSend, resolveReceive,
        mapSet, mapGet, mapDelete, hA, hB]
  · exact mapSet_keys_nodup [] k A (by simp)

/-- Witness for C3 at a concrete key and pair of nodes. -/
theorem crossfade_pairs_once_witness :
    runScenario "hero" 1 2 (fun _ => true) true true
      = ({ toSend := [], toReceive := [] }, CfRes.paired 1 2, CfRes.paired 2 1) :=
  (crossfade_pairs_once "hero" 1 2 (fun _ => true) rfl rfl true true).1

end Crossfade

namespace HookM

/-- One listener entry of `Hook._entries`: listener reference (an identifier),
disabled flag, and the resolved `once`/`priority` options. -/
structure Entry where
  listener : Nat
  disabled : Bool
  once : Bool
  priority : Int
deriving DecidableEq

/-- A registration request: the listener reference plus its options. -/
structure Reg where
  listener : Nat
  once : Bool
  priority : Int
deriving DecidableEq

/-- The entry built by `Hook.addListener` for a registration. -/
def toEntry (r : Reg) : Entry :=
  { listener := r.listener, disabled := false, once := r.once, priority := r.priority }

/-- `Hook.addListener`: registering a listener reference already present is a
no-op; a priority-`1` entry is unshifted to the front of the entry list, any
other priority is pushed to the back. -/
def addListener (es : List Entry) (r : Reg) : List Entry :=
  if es.any (fun e => e.listener == r.listener) then es
  else if r.priority == 1 then toEntry r :: es else es ++ [toEntry r]

/-- Register a sequence of listeners in order. -/
def registerAll (es : List Entry) (rs : List Reg) : List Entry :=
  rs.foldl addListener es

/-- `Hook.dispatch`: entries are traversed in order, priority-`-1` entries are
collected and deferred to a second pass after all others, and `_run` skips
disabled entries; every executed listener receives the same argument.  The
result is the ordered list of `(listener, argument)` invocations. -/
def dispatchCalls {α : Type} (es : List Entry) (arg : α) : List (Nat × α) :=
  ((es.filter (fun e => e.priority != -1) ++ es.filter (fun e => e.priority == -1)).filter
      (fun e => !e.disabled)).map (fun e => (e.listener, arg))

/-- The dispatch order asserted by the specification sentence: priority-high
listeners first in insertion order among themselves, then default-priority
listeners in registration order, then priority-low listeners. -/
def claimedOrder (rs : List Reg) : List Nat :=
  (rs.filter (fun r => r.priority == 1)).map Reg.listener
    ++ (rs.filter (fun r => r.priority != 1 && r.priority != -1)).map Reg.listener
    ++ (rs.filter (fun r => r.priority == -1)).map Reg.listener

/-- Structure of the entry list after registering distinct listeners on an
accumulator: high-priority registrations pile up in reverse order at the
front, all others append in order at the back. -/
theorem registerAll_eq (rs : List Reg) : ∀ acc : List Entry,
    ((acc.map Entry.listener) ++ rs.map Reg.listener).Nodup →
    registerAll acc rs
      = ((rs.filter (fun r => r.priority == 1)).reverse.map toEntry)
        ++ acc ++ ((rs.filter (fun r => r.priority != 1)).map toEntry) := by
  induction rs with
  | nil => intro acc _; simp [registerAll]
  | cons r rs ih =>
    intro acc h
    have hanyf : (acc.any (fun e => e.listener == r.listener)) = false := by
      have hdisj := (List.nodup_append.mp h).2.2
      rw [List.any_eq_false]
      intro e he
      have : e.listener ∈ acc.map Entry.listener := List.mem_map_of_mem _ he
      have hne : e.listener ≠ r.listener := by
        intro heq
        exact hdisj (heq ▸ this) (by simp)
      simpa using hne
    show registerAll (addListener acc r) rs = _
    by_cases hp : (r.priority == 1) = true
    · have hstep : addListener acc r = toEntry r :: acc := by
        simp [addListener, hanyf, hp]
      rw [hstep]
      have h' : (((toEntry r :: acc).map Entry.listener) ++ rs.map Reg.listener).Nodup := by
        have hperm : List.Perm (acc.map Entry.listener ++ r.listener :: rs.map Reg.listener)
            (r.listener :: (acc.map Entry.listener ++ rs.map Reg.listener)) :=
          List.perm_middle
        have := hperm.nodup (by simpa using h)
        simpa using this
      rw [ih (toEntry r :: acc) h']
      have hbne : (r.priority != 1) = false := by simp [bne, hp]
      simp [List.filter_cons, hp, hbne, List.reverse_cons, List.map_append]
    · have hpf : (r.priority == 1) = false := by simpa using hp
      have hstep : addListener acc r = acc ++ [toEntry r] := by
        simp [addListener, hanyf, hpf]
      rw [hstep]
      have h' : (((acc ++ [toEntry r]).map Entry.listener) ++ rs.map Reg.listener).Nodup := by
        simpa [List.map_append, List.append_assoc] using h
      rw [ih (acc ++ [toEntry r]) h']
      have hbne : (r.priority != 1) = true := by simp [bne, hpf]
      simp [List.filter_cons, hpf, hbne, List.append_assoc]

/-- Commuting a filter past `map toEntry`. -/
theorem filter_map_toEntry (p : Entry → Bool) (l : List Reg) :
    (l.map toEntry).filter p = (l.filter (fun r => p (toEntry r))).map toEntry := by
  induction l with
  | nil => rfl
  | cons r t ih =>
    by_cases hp : p (toEntry r) = true
    · simp [hp, ih]
    · simp only [Bool.not_eq_true] at hp
      simp [hp, ih]

/-- C7 corrected: a single dispatch after a sequence of registrations of
distinct listeners invokes every enabled listener exactly once with the same
argument; high-priority listeners run first but in reverse insertion order
among themselves, then the remaining non-low listeners in registration order,
then priority-low listeners as a deferred pass in registration order. -/
theorem dispatch_priority_order {α : Type} (rs : List Reg) (arg : α)
    (h : (rs.map Reg.listener).Nodup) :
    dispatchCalls (registerAll [] rs) arg
      = ((rs.filter (fun r => r.priority == 1)).reverse
          ++ rs.filter (fun r => r.priority != 1 && r.priority != -1)
          ++ rs.filter (fun r => r.priority == -1)).map (fun r => (r.listener, arg))
    ∧ ∀ l ∈ rs.map Reg.listener,
        ((dispatchCalls (registerAll [] rs) arg).map Prod.fst).count l = 1 := by
  have hentries : registerAll [] rs
      = (((rs.filter (fun r => r.priority == 1)).reverse
          ++ rs.filter (fun r => r.priority != 1)).map toEntry) := by
    have := registerAll_eq rs [] (by simpa using h)
    simpa [List.map_append] using this
  have hdc : ∀ l : List Reg,
      dispatchCalls (l.map toEntry) arg
        = ((l.filter (fun r => r.priority != -1)
            ++ l.filter (fun r => r.priority == -1)).map (fun r => (r.listener, arg))) := by
    intro l
    unfold dispatchCalls
    rw [filter_map_toEntry, filter_map_toEntry, ← List.map_append, filter_map_toEntry]
    have hall : ((l.filter (fun r => (toEntry r).priority != -1)
        ++ l.filter (fun r => (toEntry r).priority == -1)).filter
          (fun r => !(toEntry r).disabled))
        = (l.filter (fun r => (toEntry r).priority != -1)
            ++ l.filter (fun r => (toEntry r).priority == -1)) := by
      rw [List.filter_eq_self]
      intro r _
      simp [toEntry]
    rw [hall, List.map_map]
    rfl
  have hmain : dispatchCalls (registerAll [] rs) arg
      = ((rs.filter (fun r => r.priority == 1)).reverse
          ++ rs.filter (fun r => r.priority != 1 && r.priority != -1)
          ++ rs.filter (fun r => r.priority == -1)).map (fun r => (r.listener, arg)) := by
    rw [hentries, hdc, List.filter_append, List.filter_append]
    have hhi : ((rs.filter (fun r => r.priority == 1)).reverse.filter
        (fun r => r.priority != -1)) = (rs.filter (fun r => r.priority == 1)).reverse := by
      rw [List.filter_eq_self]
      intro r hr
      have hr' : r ∈ rs.filter (fun r => r.priority == 1) := List.mem_reverse.mp hr
      have hr1 : (r.priority == 1) = true := (List.mem_filter.mp hr').2
      have : r.priority = 1 := by simpa using hr1
      simp [this]
    have hhi2 : ((rs.filter (fun r => r.priority == 1)).reverse.filter
        (fun r => r.priority == -1)) = [] := by
      rw [List.filter_eq_nil_iff]
      intro r hr
      have hr' : r ∈ rs.filter (fun r => r.priority == 1) := List.mem_reverse.mp hr
      have hr1 : (r.priority == 1) = true := (List.mem_filter.mp hr').2
      have : r.priority = 1 := by simpa using hr1
      simp [this]
    have hmid : ((rs.filter (fun r => r.priority != 1)).filter
        (fun r => r.priority != -1))
        = rs.filter (fun r => r.priority != 1 && r.priority != -1) := by
      rw [List.filter_filter]
      apply List.filter_congr
      intro r _
      rw [Bool.and_comm]
    have hlow : ((rs.filter (fun r => r.priority != 1)).filter
        (fun r => r.priority == -1)) = rs.filter (fun r => r.priority == -1) := by
      rw [List.filter_filter]
      apply List.filter_congr
      intro r _
      by_cases hm : (r.priority == -1) = true
      · have : r.priority = -1 := by simpa using hm
        simp [this]
      · have hmf : (r.priority == -1) = false := by simpa using hm
        simp [hmf]
    rw [hhi, hhi2, hmid, hlow, List.nil_append, List.append_assoc]
  refine ⟨hmain, ?_⟩
  intro l hl
  have hperm : List.Perm (((rs.filter (fun r => r.priority == 1)).reverse
      ++ rs.filter (fun r => r.priority != 1 && r.priority != -1)
      ++ rs.filter (fun r => r.priority == -1)).map Reg.listener) (rs.map Reg.listener) := by
    apply List.Perm.map
    rw [List.append_assoc]
    have p1 : List.Perm (rs.filter (fun r => r.priority == 1)).reverse
        (rs.filter (fun r => r.priority == 1)) :=
      List.reverse_perm _
    have p2 : List.Perm (rs.filter (fun r => r.priority != 1 && r.priority != -1)
        ++ rs.filter (fun r => r.priority == -1)) (rs.filter (fun r => r.priority != 1)) := by
      have hm : ((rs.filter (fun r => r.priority != 1)).filter (fun r => r.priority != -1))
          = rs.filter (fun r => r.priority != 1 && r.priority != -1) := by
        rw [List.filter_filter]
        apply List.filter_congr
        intro r _
        rw [Bool.and_comm]
      have hl2 : ((rs.filter (fun r => r.priority != 1)).filter
          (fun r => !(r.priority != -1))) = rs.filter (fun r => r.priority == -1) := by
        rw [List.filter_filter]
        apply List.filter_congr
        intro r _
        by_cases hm1 : (r.priority == -1) = true
        · have : r.priority = -1 := by simpa using hm1
          simp [this]
        · have hmf : (r.priority == -1) = false := by simpa using hm1
          simp [bne, hmf]
      have hsplit : (rs.filter (fun r => r.priority != 1 && r.priority != -1)
              ++ rs.filter (fun r => r.priority == -1))
          = ((rs.filter (fun r => r.priority != 1)).filter (fun r => r.priority != -1)
              ++ (rs.filter (fun r => r.priority != 1)).filter (fun r => !(r.priority != -1))) := by
        rw [hm, hl2]
      rw [hsplit]
      exact List.filter_append_perm _ _
    have p3 : List.Perm (rs.filter (fun r => r.priority == 1)
        ++ rs.filter (fun r => r.priority != 1)) rs := by
      have := List.filter_append_perm (fun r => r.priority == 1) rs
      simpa [bne] using this
    exact ((p1.append p2).trans p3)
  have hcount : ((dispatchCalls (registerAll [] rs) arg).map Prod.fst)
      = (((rs.filter (fun r => r.priority == 1)).reverse
          ++ rs.filter (fun r => r.priority != 1 && r.priority != -1)
          ++ rs.filter (fun r => r.priority == -1)).map Reg.listener) := by
    rw [hmain, List.map_map]
    rfl
  rw [hcount, hperm.count_eq]
  exact List.count_eq_one_of_mem h hl

/-- Witness for the amended C7 ordering at a concrete registration sequence:
listeners `2` and `4` are high priority and run in reverse insertion order,
then default-priority `1`, then low-priority `3`. -/
theorem dispatch_priority_order_witness :
    dispatchCalls (registerAll []
        [{ listener := 1, once := false, priority := 0 },
         { listener := 2, once := false, priority := 1 },
         { listener := 3, once := false, priority := -1 },
         { listener := 4, once := false, priority := 1 }]) (7 : Nat)
      = [(4, 7), (2, 7), (1, 7), (3, 7)] := by
  have h := (dispatch_priority_order
    [{ listener := 1, once := false, priority := 0 },
     { listener := 2, once := false, priority := 1 },
     { listener := 3, once := false, priority := -1 },
     { listener := 4, once := false, priority := 1 }] (7 : Nat) (by decide)).1
  exact h.trans (by decide)

/-- Counterexample to C7 as stated: two high-priority listeners registered in
the order `1, 2` are dispatched in the order `2, 1`, not in insertion order. -/
theorem dispatch_order_claim_counterexample :
    ((dispatchCalls (registerAll []
        [{ listener := 1, once := false, priority := 1 },
         { listener := 2, once := false, priority := 1 }]) (0 : Nat)).map Prod.fst)
      ≠ claimedOrder
        [{ listener := 1, once := false, priority := 1 },
         { listener := 2, once := false, priority := 1 }] := by
  decide

end HookM

namespace Tween

/-- Transition direction, `'in'` or `'out'`. -/
inductive Dir
  | din
  | dout
deriving DecidableEq

/-- Transition type, `'idle' | 'intro' | 'outro'`. -/
inductive TType
  | tIdle
  | tIntro
  | tOutro
deriving DecidableEq

/-- Overlap strategy for a new transition in the same direction as the active
one; the resolved default is `prevent`. -/
inductive Strategy
  | prevent
  | invalidate
  | restart
  | add
deriving DecidableEq

/-- The `inViewport` parameter: a boolean or a numeric visibility threshold. -/
inductive Viewport
  | vb (b : Bool)
  | vn (q : ℚ)
deriving DecidableEq

/-- A DOM element as the engine observes it: its own `data-*` attributes, the
attribute values of the closest ancestor carrying each attribute, and the
external `ScrollTrigger.isInViewport` oracle by threshold. -/
structure Elem where
  attrs : List (String × String) := []
  closestAttrs : List (String × String) := []
  inView : ℚ → Bool := fun _ => true

/-- `node.getAttribute`. -/
def getAttr (e : Elem) (k : String) : Option String :=
  (e.attrs.find? (fun p => p.1 == k)).map (·.2)

/-- Attribute value found through `node.closest('[data-key]')`. -/
def getClosestAttr (e : Elem) (k : String) : Option String :=
  (e.closestAttrs.find? (fun p => p.1 == k)).map (·.2)

/-- An `Attach` value: an element, a CSS selector, or an accessor function. -/
inductive Attach
  | el (e : Elem)
  | sel (s : String)
  | fnA (f : Unit → Option Elem)

/-- `resolveAttach`, with `document.querySelector` supplied as `doc`. -/
def resolveAttach (doc : String → Option Elem) : Option Attach → Option Elem
  | some (Attach.el e) => some e
  | some (Attach.sel s) => doc s
  | some (Attach.fnA f) => f ()
  | none => none

/-- `resolveDataFlag`: read the `data-` attribute from the node or its closest
carrying ancestor; `"in"`/`"out"` coerce to a directional check, any other
present value except `"false"` coerces to `true`, a missing value falls back. -/
def resolveDataFlag (node : Option Elem) (key : String) (direction : Option Dir)
    (fallback : Bool) : Bool :=
  let value := node.bind (fun n => getAttr n ("data-" ++ key))
  let value := match value, node with
    | none, some n => getClosestAttr n ("data-" ++ key)
    | v, _ => v
  match value with
  | none => fallback
  | some v =>
    if v = "in" then direction == some Dir.din
    else if v = "out" then direction == some Dir.dout
    else v != "false"

/-- Per-call transition parameters (`TweenTransitionParams`); absent optional
fields are `none`. -/
structure TTParams where
  attach : Option Attach := none
  ignore : Option Bool := none
  data : List (String × Nat) := []
  dispatchEvents : Option Bool := none
  instant : Option Bool := none
  inViewport : Option Viewport := none
  overlapStrategy : Option Strategy := none
  overwrite : Option Bool := none

/-- Idle-call parameters (`TweenTransitionIdleParams`). -/
structure IdleParams where
  attach : Option Attach := none
  ignore : Option Bool := none
  data : List (String × Nat) := []
  direction : Option Dir := none

/-- Instance-wide options (`TweenTransitionOptions`): parameter defaults plus
`bypass` and the per-type override blocks. -/
structure TTOptions where
  attach : Option Attach := none
  ignore : Option Bool := none
  data : List (String × Nat) := []
  dispatchEvents : Option Bool := none
  instant : Option Bool := none
  inViewport : Option Viewport := none
  overlapStrategy : Option Strategy := none
  overwrite : Option Bool := none
  bypass : Option Bool := none
  idleO : Option IdleParams := none
  introO : Option TTParams := none
  outroO : Option TTParams := none

/-- JS object-spread merge of `data` payloads: keys of the second override
keys of the first. -/
def mergeData (base o : List (String × Nat)) : List (String × Nat) :=
  (base.filter (fun p => !(o.any (fun q => q.1 == p.1)))) ++ o

/-- Spread a per-type `TweenTransitionParams` block over the instance options. -/
def overrideParams (opts : TTOptions) (o : TTParams) : TTOptions :=
  { opts with
    attach := o.attach <|> opts.attach,
    ignore := o.ignore <|> opts.ignore,
    dispatchEvents := o.dispatchEvents <|> opts.dispatchEvents,
    instant := o.instant <|> opts.instant,
    inViewport := o.inViewport <|> opts.inViewport,
    overlapStrategy := o.overlapStrategy <|> opts.overlapStrategy,
    overwrite := o.overwrite <|> opts.overwrite,
    data := mergeData opts.data o.data }

/-- `TweenTransition._resolveOptions`: merge the per-type option block (and
its `data`) over the instance-wide options. -/
def resolveOptions (opts : TTOptions) : TType → TTOptions
  | TType.tIdle =>
    match opts.idleO with
    | none => opts
    | some i =>
      { opts with
        attach := i.attach <|> opts.attach,
        ignore := i.ignore <|> opts.ignore,
        data := mergeData opts.data i.data }
  | TType.tIntro =>
    match opts.introO with
    | none => opts
    | some o => overrideParams opts o
  | TType.tOutro =>
    match opts.outroO with
    | none => opts
    | some o => overrideParams opts o

/-- Fully resolved transition parameters (`ResolvedTweenTransitionParams`). -/
structure Resolved where
  attach : Option Elem
  dispatchEvents : Bool
  instant : Bool
  bypass : Bool
  ignore : Bool
  inViewport : Viewport
  overlapStrategy : Strategy
  overwrite : Bool
  data : List (String × Nat)

/-- `resolveParams`: resolve the attach target through the document, the
`instant`/`bypass` flags through `data-*` attributes, and fill every other
field from call params over options over hard defaults. -/
def resolveParams (doc : String → Option Elem) (direction : Option Dir)
    (params : TTParams) (options : TTOptions) : Resolved :=
  let attach := resolveAttach doc (params.attach <|> options.attach)
  { attach := attach,
    dispatchEvents := (params.dispatchEvents <|> options.dispatchEvents).getD false,
    instant := resolveDataFlag attach "instant" direction
      ((params.instant <|> options.instant).getD false),
    bypass := resolveDataFlag attach "bypass" direction (options.bypass.getD false),
    ignore := (params.ignore <|> options.ignore).getD false,
    inViewport := (params.inViewport <|> options.inViewport).getD (Viewport.vb false),
    overlapStrategy := (params.overlapStrategy <|> options.overlapStrategy).getD Strategy.prevent,
    overwrite := (params.overwrite <|> options.overwrite).getD true,
    data := mergeData options.data params.data }

/-- `shouldSkipTransition`: skip on `bypass`, on an instant outro, or when a
viewport requirement is set, an attach target exists, and the target is not
sufficiently visible. -/
def shouldSkipTransition (direction : Dir) (p : Resolved) : Bool :=
  p.bypass
    || (direction == Dir.dout && p.instant)
    || (match p.inViewport, p.attach with
        | Viewport.vb false, _ => false
        | _, none => false
        | Viewport.vb true, some a => !(a.inView 0)
        | Viewport.vn q, some a => !(a.inView q))

/-- A per-direction transition record (`TweenTransitionRecord`). -/
structure TRecord where
  animation : Option Nat
  direction : Dir
  ttype : TType
  ratio : ℚ
  params : Resolved

/-- Arguments handed to the user transition function
(`TweenTransitionFunctionParams`). -/
structure TFArgs where
  last : Option TRecord
  ttype : TType
  direction : Dir
  ratio : ℚ
  params : Resolved

/-- The state of one animation handle in the external tween engine. -/
structure AnimInfo where
  progress : ℚ := 0
  killed : Bool := false
  reverted : Bool := false

/-- The external tween engine: per-handle state plus a fresh-handle counter. -/
structure AnimEnv where
  anims : Nat → AnimInfo
  nextId : Nat := 0

/-- Update one animation handle. -/
def setAnim (env : AnimEnv) (i : Nat) (f : AnimInfo → AnimInfo) : AnimEnv :=
  { env with anims := fun j => if j = i then f (env.anims j) else env.anims j }

/-- A freshly created animation handle: progress `0`, alive. -/
def freshAnim : AnimInfo := {}

/-- Mutable state of one `TweenTransition` instance: the two per-direction
records, the queued pre-mount idle call, the currently playing animation with
its direction and start ratio, and the handles owned by the GSAP context. -/
structure EngineState where
  recIn : Option TRecord := none
  recOut : Option TRecord := none
  qeuedIdle : Option IdleParams := none
  allowIdle : Bool := false
  animation : Option Nat := none
  direction : Option Dir := none
  ratio : ℚ := 0
  ctxAnims : List Nat := []

/-- `this._records[direction]`. -/
def getRec (st : EngineState) : Dir → Option TRecord
  | Dir.din => st.recIn
  | Dir.dout => st.recOut

/-- Write `this._records[direction]`. -/
def setRec (st : EngineState) (d : Dir) (r : TRecord) : EngineState :=
  match d with
  | Dir.din => { st with recIn := some r }
  | Dir.dout => { st with recOut := some r }

/-- A `TweenTransition` instance: its options, and its transition function
represented by the predicate telling whether the function returns an
animation for the given arguments. -/
structure Engine where
  opts : TTOptions := {}
  tfCreates : TFArgs → Bool

/-- `gsap.context(...).revert()`: kill and revert every animation created in
the instance context, emptying the context. -/
def contextRevert (env : AnimEnv) (st : EngineState) : AnimEnv × EngineState :=
  (st.ctxAnims.foldl (fun e i => setAnim e i (fun ai => { ai with reverted := true, killed := true })) env,
   { st with ctxAnims := [] })

/-- The body of `TweenTransition.idle` once past the mount queue, with the
recursive call into `_executeTransition` abstracted as `exec`: resolve the
idle parameters (forcing `instant` and overlap strategy `add`), revert the
GSAP context, then execute in the resolved direction. -/
def idleWith
    (exec : AnimEnv → EngineState → Dir → Resolved → Bool → AnimEnv × EngineState × Option Nat)
    (E : Engine) (doc : String → Option Elem) (env : AnimEnv) (st : EngineState)
    (params : IdleParams) : AnimEnv × EngineState × Option Nat :=
  if !st.allowIdle then (env, { st with qeuedIdle := some params }, none)
  else
    let ro := resolveOptions E.opts TType.tIdle
    let idleDefaults := ro.idleO.getD {}
    let direction := (params.direction <|> idleDefaults.direction).getD Dir.dout
    let callP : TTParams :=
      { attach := params.attach, ignore := params.ignore, data := params.data,
        instant := some true, overlapStrategy := some Strategy.add }
    let rp := resolveParams doc none callP { ro with idleO := none }
    let r := contextRevert env st
    exec r.1 r.2 direction rp true

/-- `TweenTransition._executeTransition`: overlap resolution against the
active animation (prevent / invalidate / restart / add in the same direction,
ratio `1 − progress` in the opposite direction), optional overwrite kill,
creation of the new animation inside the GSAP context, instant/resume
progress seeking, and — unless `ignore` — update of the per-direction record
and of the stored animation/direction/ratio.  `fuel` bounds the recursion
through the `invalidate` strategy, which re-enters through `idle`. -/
def executeTransition (E : Engine) (doc : String → Option Elem) :
    Nat → AnimEnv → EngineState → Dir → Resolved → Bool → AnimEnv × EngineState × Option Nat
  | 0, env, st, _, _, _ => (env, st, none)
  | Nat.succ fuel, env, st, direction, params, idleFlag =>
    let afterOverlap : Option (AnimEnv × EngineState × ℚ × Option ℚ) :=
      match st.animation with
      | none => some (env, st, 0, none)
      | some a =>
        let progress := (env.anims a).progress
        if st.direction == some direction then
          match params.overlapStrategy with
          | Strategy.prevent => none
          | Strategy.invalidate =>
            let lastDirection := if st.direction == some Dir.din then Dir.dout else Dir.din
            let lastParams := (getRec st lastDirection).map (·.params)
            let r := idleWith (executeTransition E doc fuel) E doc env st
              { direction := some lastDirection,
                attach := (lastParams.bind (·.attach)).map Attach.el,
                ignore := some true,
                data := (lastParams.map (·.data)).getD [] }
            some (r.1, r.2.1, 0, some progress)
          | Strategy.restart =>
            some (setAnim env a (fun ai => { ai with reverted := true }), st, 0, none)
          | Strategy.add => some (env, st, progress, none)
        else
          some (env, st, 1 - progress, none)
    match afterOverlap with
    | none => (env, st, none)
    | some (env1, st1, ratio, resume) =>
      let env1 :=
        if params.overwrite then
          match st1.animation with
          | some a => setAnim env1 a (fun ai => { ai with killed := true })
          | none => env1
        else env1
      let ttype := if idleFlag then TType.tIdle
        else if direction == Dir.din then TType.tIntro else TType.tOutro
      let args : TFArgs :=
        { last := st1.direction.bind (fun d => getRec st1 d),
          ttype := ttype, direction := direction, ratio := ratio, params := params }
      let created : Option Nat := if E.tfCreates args then some env1.nextId else none
      let env2 :=
        match created with
        | some i =>
          { env1 with
            anims := fun j => if j = i then freshAnim else env1.anims j,
            nextId := env1.nextId + 1 }
        | none => env1
      let st2 :=
        match created with
        | some i => { st1 with ctxAnims := st1.ctxAnims ++ [i] }
        | none => st1
      let progressSet : Option ℚ := if params.instant then some 1 else resume
      let env3 :=
        match progressSet, created with
        | some pr, some i => setAnim env2 i (fun ai => { ai with progress := pr })
        | _, _ => env2
      let newRec : TRecord :=
        { animation := created, direction := direction, ttype := ttype,
          ratio := ratio, params := params }
      let stRec := setRec st2 direction newRec
      let st3 :=
        if params.ignore then st2
        else { stRec with animation := created, direction := some direction, ratio := ratio }
      (env3, st3, created)

/-- Fuel covering every reachable overlap-resolution path (the `invalidate`
strategy re-enters `_executeTransition` exactly once, with strategy `add`). -/
def execFuel : Nat := 3

/-- `TweenTransition.idle` public entry. -/
def idleCall (E : Engine) (doc : String → Option Elem) (env : AnimEnv) (st : EngineState)
    (params : IdleParams) : AnimEnv × EngineState × Option Nat :=
  idleWith (executeTransition E doc execFuel) E doc env st params

/-- `TweenTransition._handleIdle`: allow idles from now on and flush the
queued pre-mount idle call, if any. -/
def handleIdle (E : Engine) (doc : String → Option Elem) (env : AnimEnv) (st : EngineState) :
    AnimEnv × EngineState :=
  let st := { st with allowIdle := true }
  match st.qeuedIdle with
  | none => (env, st)
  | some q =>
    let r := idleCall E doc env st q
    (r.1, { r.2.1 with qeuedIdle := none })

/-- `TweenTransition.intro`. -/
def intro (E : Engine) (doc : String → Option Elem) (env : AnimEnv) (st : EngineState)
    (params : TTParams) : AnimEnv × EngineState × Option Nat :=
  let r := handleIdle E doc env st
  let options := resolveOptions E.opts TType.tIntro
  let rp := resolveParams doc (some Dir.din) params options
  if shouldSkipTransition Dir.din rp then (r.1, r.2, none)
  else executeTransition E doc execFuel r.1 r.2 Dir.din rp false

/-- `TweenTransition.outro`: `inViewport` defaults to `true` for outros. -/
def outro (E : Engine) (doc : String → Option Elem) (env : AnimEnv) (st : EngineState)
    (params : TTParams) : AnimEnv × EngineState × Option Nat :=
  let r := handleIdle E doc env st
  let options := resolveOptions E.opts TType.tOutro
  let rp := resolveParams doc (some Dir.dout)
    { params with inViewport := some (params.inViewport.getD (Viewport.vb true)) } options
  if shouldSkipTransition Dir.dout rp then (r.1, r.2, none)
  else executeTransition E doc execFuel r.1 r.2 Dir.dout rp false

/-- C6: while an animation started by `outro()` is active, a second `outro()`
with default parameters resolves overlap strategy `prevent` and is a silent
no-op: it returns no animation handle, creates nothing, kills nothing, and
leaves the engine state — including the active animation's progress and the
stored direction and ratio — exactly unchanged. -/
theorem outro_overlap_prevent_noop (E : Engine) (doc : String → Option Elem)
    (env : AnimEnv) (st : EngineState) (a : Nat)
    (hopts : E.opts = {}) (h1 : st.animation = some a) (h2 : st.direction = some Dir.dout)
    (h3 : st.qeuedIdle = none) (h4 : st.allowIdle = true) :
    outro E doc env st {} = (env, st, none) := by
  obtain ⟨o, tf⟩ := E
  have ho : o = {} := hopts
  subst ho
  obtain ⟨rin, rout, qi, ai, an, dir, rat, ctx⟩ := st
  have h1' : an = some a := h1
  have h2' : dir = some Dir.dout := h2
  have h3' : qi = none := h3
  have h4' : ai = true := h4
  subst h1' h2' h3' h4'
  rfl

/-- Concrete instance data for the C6 witness. -/
def egEngine : Engine :=
  { opts := {}, tfCreates := fun _ => true }

/-- Concrete document for the witnesses: no selector resolves. -/
def egDoc : String → Option Elem := fun _ => none

/-- Concrete animation environment for the C6 witness: handle `0` exists. -/
def egEnv : AnimEnv :=
  { anims := fun _ => {}, nextId := 1 }

/-- Concrete engine state for the C6 witness: an outro animation is active. -/
def egState : EngineState :=
  { animation := some 0, direction := some Dir.dout, allowIdle := true }

/-- Witness for C6: with an outro in flight, a second default `outro()` call
returns no animation and changes nothing. -/
theorem outro_overlap_prevent_noop_witness :
    outro egEngine egDoc egEnv egState {} = (egEnv, egState, none) :=
  outro_overlap_prevent_noop egEngine egDoc egEnv egState 0 rfl rfl rfl rfl rfl

/-- C5: while an animation is active in the `out` direction at progress `p`,
calling `intro()` with default parameters starts the new transition at ratio
`1 − p`: the stored engine ratio, the recorded `in` transition's ratio, and
the stored direction all reflect the crossing. -/
theorem intro_starts_at_one_minus_progress (E : Engine) (doc : String → Option Elem)
    (env : AnimEnv) (st : EngineState) (a : Nat) (p : ℚ)
    (hopts : E.opts = {}) (h1 : st.animation = some a) (h2 : st.direction = some Dir.dout)
    (h3 : st.qeuedIdle = none) (h4 : st.allowIdle = true)
    (hp : (env.anims a).progress = p) (hp0 : 0 ≤ p) (hp1 : p ≤ 1) :
    (intro E doc env st {}).2.1.ratio = 1 - p
    ∧ ((intro E doc env st {}).2.1.recIn).map TRecord.ratio = some (1 - p)
    ∧ (intro E doc env st {}).2.1.direction = some Dir.din := by
  obtain ⟨o, tf⟩ := E
  have ho : o = {} := hopts
  subst ho
  obtain ⟨rin, rout, qi, ai, an, dir, rat, ctx⟩ := st
  have h1' : an = some a := h1
  have h2' : dir = some Dir.dout := h2
  have h3' : qi = none := h3
  have h4' : ai = true := h4
  subst h1' h2' h3' h4'
  subst hp
  exact ⟨rfl, rfl, rfl⟩

/-- Concrete animation environment for the C5 witness: the active handle `0`
is at progress `1/3`. -/
def egEnvP : AnimEnv :=
  { anims := fun _ => { progress := 1/3 }, nextId := 1 }

/-- Witness for C5: interrupting an outro at progress `1/3` starts the intro
at ratio `2/3`. -/
theorem intro_starts_at_one_minus_progress_witness :
    (intro egEngine egDoc egEnvP egState {}).2.1.ratio = 1 - 1/3 :=
  (intro_starts_at_one_minus_progress egEngine egDoc egEnvP egState 0 (1/3)
    rfl rfl rfl rfl rfl rfl (by norm_num) (by norm_num)).1

end Tween

namespace Suspense

/-- Constructor options (`SuspenseContextOptions`) with the constructor-time
registrations: `final`, an optional settle delay in seconds, tasks to
register immediately, and an optional predicate.  Task promises and
predicates are identified by naturals. -/
structure SuspenseOptions where
  final : Bool := false
  suspendDelay : Option ℚ := none
  suspendTasks : List Nat := []
  suspendState : Option Nat := none

/-- A configuration of a `SuspenseContext` together with its reactive
environment: the pending delay map (holder, seconds), the pending task and
predicate sets, the `_suspended` and `_hasRevealed` flags, the total-task
counter, the pending settle timer (the armed wait in milliseconds), the
current boolean value of every predicate, the parent boundary's suspended
flag (`false` when no dependency is linked), and dispatch counters for the
`onReveal`/`onSuspend` hooks. -/
structure Cfg where
  pendingDelays : List (Nat × ℚ) := []
  pendingTasks : List Nat := []
  pendingStates : List Nat := []
  suspended : Bool := true
  totalTaskCount : Nat := 0
  hasRevealed : Bool := false
  timeout : Option ℚ := none
  stateVals : List (Nat × Bool) := []
  parentSuspended : Bool := false
  revealDispatches : Nat := 0
  suspendDispatches : Nat := 0
deriving DecidableEq

/-- Current value of a registered predicate (`false` when unknown). -/
def stateVal (c : Cfg) (i : Nat) : Bool :=
  ((c.stateVals.find? (fun p => p.1 == i)).map (·.2)).getD false

/-- The suspended condition computed by the `$effect` body of
`SuspenseContext._init`: some pending predicate evaluates true, or some
pending task exists, or the parent boundary is suspended. -/
def cond (c : Cfg) : Bool :=
  (c.pendingStates.any (stateVal c) || !c.pendingTasks.isEmpty) || c.parentSuspended

/-- JS `Math.max` on rationals (defined through the computable comparison so
that concrete runs evaluate). -/
def qmax (a b : ℚ) : ℚ :=
  if Rat.blt a b then b else a

/-- `SuspenseContext._getDelay`: `Math.max(0, ...delays) * 1000`. -/
def getDelay (c : Cfg) : ℚ :=
  ((c.pendingDelays.map (·.2)).foldl qmax 0) * 1000

/-- One run of the `$effect` body of `SuspenseContext._init`: a final revealed
boundary returns immediately; an unchanged suspended flag returns leaving any
armed timer untouched; a flip to suspended clears the timer, raises the flag
and dispatches `onSuspend`; a flip to unsuspended clears the timer and arms
it with the current settle delay. -/
def effectStep (final : Bool) (c : Cfg) : Cfg :=
  if final && c.hasRevealed then c
  else if c.suspended == cond c then c
  else if cond c then
    { c with
      timeout := none
      suspended := true
      suspendDispatches := c.suspendDispatches + 1 }
  else
    { c with timeout := some (getDelay c) }

/-- The settle-timer callback: reveal, record the terminal flag, clear the
registered delays and dispatch `onReveal`. -/
def timerFire (c : Cfg) : Cfg :=
  { c with
    suspended := false
    hasRevealed := true
    pendingDelays := []
    timeout := none
    revealDispatches := c.revealDispatches + 1 }

/-- `SvelteSet.add` keyed by identifier. -/
def setAdd (l : List Nat) (i : Nat) : List Nat :=
  if i ∈ l then l else l ++ [i]

/-- JS `Map.set` keyed by a natural. -/
def kmapSet {β : Type} (m : List (Nat × β)) (k : Nat) (v : β) : List (Nat × β) :=
  if m.any (fun p => p.1 == k) then m.map (fun p => if p.1 == k then (k, v) else p)
  else m ++ [(k, v)]

/-- The task-adding loop of `_suspendTasks`: each task joins the pending set
and increments the total counter. -/
def addTasks (c : Cfg) (ids : List Nat) : Cfg :=
  ids.foldl (fun c i =>
    { c with
      pendingTasks := setAdd c.pendingTasks i
      totalTaskCount := c.totalTaskCount + 1 }) c

/-- `SuspenseContext._suspendTasks`: ignored entirely once a `final` boundary
has revealed; otherwise the total counter is reset to `0` when the boundary
is currently not suspended, and every task is added. -/
def suspendTasksMut (final : Bool) (c : Cfg) (ids : List Nat) : Cfg :=
  if !final || !c.hasRevealed then
    addTasks (if !c.suspended then { c with totalTaskCount := 0 } else c) ids
  else c

/-- A task promise settling (`task.finally` → `_unsuspendTask`). -/
def unsuspendTaskMut (c : Cfg) (i : Nat) : Cfg :=
  { c with pendingTasks := c.pendingTasks.erase i }

/-- `_suspendState`. -/
def suspendStateMut (c : Cfg) (i : Nat) : Cfg :=
  { c with pendingStates := setAdd c.pendingStates i }

/-- `_unsuspendState` (component teardown). -/
def unsuspendStateMut (c : Cfg) (i : Nat) : Cfg :=
  { c with pendingStates := c.pendingStates.erase i }

/-- `suspendDelay`: set the holder's delay in the pending delay map. -/
def suspendDelayMut (c : Cfg) (holder : Nat) (d : ℚ) : Cfg :=
  { c with pendingDelays := kmapSet c.pendingDelays holder d }

/-- Holder teardown: `_pendingDelays.delete(componentId)`. -/
def unsuspendDelayMut (c : Cfg) (holder : Nat) : Cfg :=
  { c with pendingDelays := c.pendingDelays.filter (fun p => p.1 != holder) }

/-- Events driving a boundary: task registration batches and resolutions,
predicate and delay registration and teardown, external changes to predicate
values and to the parent boundary's state, and the settle timer firing. -/
inductive Ev
  | regTasks (ids : List Nat)
  | resolveTask (i : Nat)
  | regState (i : Nat)
  | unregState (i : Nat)
  | regDelay (holder : Nat) (d : ℚ)
  | unregDelay (holder : Nat)
  | setStateVal (i : Nat) (b : Bool)
  | setParent (b : Bool)
  | timerFires
deriving DecidableEq

/-- The state mutation of one event. -/
def applyEv (final : Bool) (c : Cfg) : Ev → Cfg
  | Ev.regTasks ids => suspendTasksMut final c ids
  | Ev.resolveTask i => unsuspendTaskMut c i
  | Ev.regState i => suspendStateMut c i
  | Ev.unregState i => unsuspendStateMut c i
  | Ev.regDelay h d => suspendDelayMut c h d
  | Ev.unregDelay h => unsuspendDelayMut c h
  | Ev.setStateVal i b => { c with stateVals := kmapSet c.stateVals i b }
  | Ev.setParent b => { c with parentSuspended := b }
  | Ev.timerFires => c

/-- One step of the reactive system: apply the event's mutation and run the
effect once the reactive batch settles.  `timerFires` is a no-op unless a
timer is armed; when it is, the callback runs and the effect re-runs (it
tracks the `_suspended` state the callback wrote). -/
def step (final : Bool) (c : Cfg) : Ev → Cfg
  | Ev.timerFires =>
    match c.timeout with
    | none => c
    | some _ => effectStep final (timerFire c)
  | e => effectStep final (applyEv final c e)

/-- Run a sequence of events. -/
def run (final : Bool) (c : Cfg) (es : List Ev) : Cfg :=
  es.foldl (step final) c

/-- Constructor registration of the option-supplied delay, held by the
reserved holder `0`; a zero delay is falsy in JS and skipped. -/
def initDelay (opts : SuspenseOptions) (c : Cfg) : Cfg :=
  match opts.suspendDelay with
  | some d => if d = 0 then c else { c with pendingDelays := [(0, d)] }
  | none => c

/-- Constructor registration of the option-supplied predicate, if any. -/
def initState (opts : SuspenseOptions) (c : Cfg) : Cfg :=
  match opts.suspendState with
  | some s => suspendStateMut c s
  | none => c

/-- The full constructor: apply the three registrations to the blank state,
then run the effect for the first time. -/
def initCfg (opts : SuspenseOptions) (initStateVals : List (Nat × Bool))
    (parentSusp : Bool) : Cfg :=
  effectStep opts.final
    (initState opts
      (suspendTasksMut opts.final
        (initDelay opts { stateVals := initStateVals, parentSuspended := parentSusp })
        opts.suspendTasks))

/-- The `$derived` resolved-task counter: total minus pending. -/
def resolvedTaskCount (c : Cfg) : Nat :=
  c.totalTaskCount - c.pendingTasks.length

/-- The `$derived` progress ratio: `resolved / (total || 1)`. -/
def progress (c : Cfg) : ℚ :=
  (resolvedTaskCount c : ℚ) / (if c.totalTaskCount = 0 then 1 else (c.totalTaskCount : ℚ))

/-- The aggregate-flag invariant exactly as the specification states it:
the suspended flag equals the suspended condition, except that it may stay
raised while the settle timer is pending. -/
def claimInv (c : Cfg) : Bool :=
  c.suspended == (cond c || c.timeout.isSome)

/-- The invariant the code actually maintains: once a `final` boundary has
revealed, the flag is down and no timer is armed, whatever the condition;
otherwise the flag equals the condition or a settle timer is pending. -/
def invHolds (final : Bool) (c : Cfg) : Bool :=
  if final && c.hasRevealed then !c.suspended && c.timeout.isNone
  else c.suspended == (cond c || c.timeout.isSome)

/-- The effect leaves the pending task set unchanged. -/
theorem effectStep_pendingTasks (f : Bool) (c : Cfg) :
    (effectStep f c).pendingTasks = c.pendingTasks := by
  unfold effectStep
  split
  · rfl
  · split
    · rfl
    · split <;> rfl

/-- The effect leaves the pending predicate set unchanged. -/
theorem effectStep_pendingStates (f : Bool) (c : Cfg) :
    (effectStep f c).pendingStates = c.pendingStates := by
  unfold effectStep
  split
  · rfl
  · split
    · rfl
    · split <;> rfl

/-- The effect leaves the delay map unchanged. -/
theorem effectStep_pendingDelays (f : Bool) (c : Cfg) :
    (effectStep f c).pendingDelays = c.pendingDelays := by
  unfold effectStep
  split
  · rfl
  · split
    · rfl
    · split <;> rfl

/-- The effect leaves the predicate values unchanged. -/
theorem effectStep_stateVals (f : Bool) (c : Cfg) :
    (effectStep f c).stateVals = c.stateVals := by
  unfold effectStep
  split
  · rfl
  · split
    · rfl
    · split <;> rfl

/-- The effect leaves the parent flag unchanged. -/
theorem effectStep_parentSuspended (f : Bool) (c : Cfg) :
    (effectStep f c).parentSuspended = c.parentSuspended := by
  unfold effectStep
  split
  · rfl
  · split
    · rfl
    · split <;> rfl

/-- The effect leaves the total-task counter unchanged. -/
theorem effectStep_totalTaskCount (f : Bool) (c : Cfg) :
    (effectStep f c).totalTaskCount = c.totalTaskCount := by
  unfold effectStep
  split
  · rfl
  · split
    · rfl
    · split <;> rfl

/-- The effect leaves the revealed flag unchanged. -/
theorem effectStep_hasRevealed (f : Bool) (c : Cfg) :
    (effectStep f c).hasRevealed = c.hasRevealed := by
  unfold effectStep
  split
  · rfl
  · split
    · rfl
    · split <;> rfl

/-- Predicate values read through the effect's result are unchanged. -/
theorem stateVal_effectStep (f : Bool) (c : Cfg) :
    stateVal (effectStep f c) = stateVal c := by
  funext i
  unfold stateVal
  rw [effectStep_stateVals]

/-- The suspended condition is untouched by the effect. -/
theorem cond_effectStep (f : Bool) (c : Cfg) : cond (effectStep f c) = cond c := by
  simp only [cond, stateVal_effectStep, effectStep_pendingStates, effectStep_pendingTasks,
    effectStep_parentSuspended]

/-- The task-adding loop touches only the pending task set and the counter. -/
theorem addTasks_const (ids : List Nat) : ∀ c : Cfg,
    (addTasks c ids).suspended = c.suspended
    ∧ (addTasks c ids).timeout = c.timeout
    ∧ (addTasks c ids).hasRevealed = c.hasRevealed
    ∧ (addTasks c ids).pendingStates = c.pendingStates
    ∧ (addTasks c ids).pendingDelays = c.pendingDelays
    ∧ (addTasks c ids).stateVals = c.stateVals
    ∧ (addTasks c ids).parentSuspended = c.parentSuspended
    ∧ (addTasks c ids).revealDispatches = c.revealDispatches
    ∧ (addTasks c ids).suspendDispatches = c.suspendDispatches := by
  induction ids with
  | nil => intro c; exact ⟨rfl, rfl, rfl, rfl, rfl, rfl, rfl, rfl, rfl⟩
  | cons i t ih => intro c; exact ih _

/-- The task-adding loop increments the counter by the batch size. -/
theorem addTasks_total (ids : List Nat) : ∀ c : Cfg,
    (addTasks c ids).totalTaskCount = c.totalTaskCount + ids.length := by
  induction ids with
  | nil => intro c; rfl
  | cons i t ih =>
    intro c
    have h := ih { c with
      pendingTasks := setAdd c.pendingTasks i
      totalTaskCount := c.totalTaskCount + 1 }
    exact h.trans (by simp [List.length_cons]; omega)

/-- Adding a batch of fresh distinct tasks appends them to the pending set. -/
theorem addTasks_pending (ids : List Nat) : ∀ c : Cfg,
    (∀ i ∈ ids, i ∉ c.pendingTasks) → ids.Nodup →
    (addTasks c ids).pendingTasks = c.pendingTasks ++ ids := by
  induction ids with
  | nil => intro c _ _; simp [addTasks]
  | cons i t ih =>
    intro c hfresh hnodup
    have hi : i ∉ c.pendingTasks := hfresh i (by simp)
    have hstep : setAdd c.pendingTasks i = c.pendingTasks ++ [i] := by
      unfold setAdd; rw [if_neg hi]
    have hn := List.nodup_cons.mp hnodup
    have h := ih { c with
      pendingTasks := setAdd c.pendingTasks i
      totalTaskCount := c.totalTaskCount + 1 }
      (by
        intro j hj
        show j ∉ setAdd c.pendingTasks i
        rw [hstep]
        simp only [List.mem_append, List.mem_singleton]
        push_neg
        refine ⟨hfresh j (by simp [hj]), ?_⟩
        intro hji
        exact hn.1 (hji ▸ hj))
      hn.2
    refine h.trans ?_
    show setAdd c.pendingTasks i ++ t = c.pendingTasks ++ i :: t
    rw [hstep, List.append_assoc, List.singleton_append]

/-- `_suspendTasks` leaves the suspended flag in place. -/
theorem suspendTasksMut_suspended (f : Bool) (c : Cfg) (ids : List Nat) :
    (suspendTasksMut f c ids).suspended = c.suspended := by
  unfold suspendTasksMut
  split
  · split <;> exact (addTasks_const ids _).1
  · rfl

/-- `_suspendTasks` leaves the timer in place. -/
theorem suspendTasksMut_timeout (f : Bool) (c : Cfg) (ids : List Nat) :
    (suspendTasksMut f c ids).timeout = c.timeout := by
  unfold suspendTasksMut
  split
  · split <;> exact (addTasks_const ids _).2.1
  · rfl

/-- `_suspendTasks` leaves the revealed flag in place. -/
theorem suspendTasksMut_hasRevealed (f : Bool) (c : Cfg) (ids : List Nat) :
    (suspendTasksMut f c ids).hasRevealed = c.hasRevealed := by
  unfold suspendTasksMut
  split
  · split <;> exact (addTasks_const ids _).2.2.1
  · rfl

/-- `_suspendTasks` dispatches nothing. -/
theorem suspendTasksMut_dispatches (f : Bool) (c : Cfg) (ids : List Nat) :
    (suspendTasksMut f c ids).suspendDispatches = c.suspendDispatches
    ∧ (suspendTasksMut f c ids).revealDispatches = c.revealDispatches := by
  unfold suspendTasksMut
  split
  · constructor
    · split <;> exact (addTasks_const ids _).2.2.2.2.2.2.2.2
    · split <;> exact (addTasks_const ids _).2.2.2.2.2.2.2.1
  · exact ⟨rfl, rfl⟩

/-- No event mutation moves the flag, the timer, the revealed marker or the
dispatch counters; only the effect and the timer callback do. -/
theorem applyEv_flags (f : Bool) (c : Cfg) (e : Ev) :
    (applyEv f c e).suspended = c.suspended
    ∧ (applyEv f c e).timeout = c.timeout
    ∧ (applyEv f c e).hasRevealed = c.hasRevealed
    ∧ (applyEv f c e).suspendDispatches = c.suspendDispatches
    ∧ (applyEv f c e).revealDispatches = c.revealDispatches := by
  cases e with
  | regTasks ids =>
    exact ⟨suspendTasksMut_suspended f c ids, suspendTasksMut_timeout f c ids,
      suspendTasksMut_hasRevealed f c ids, (suspendTasksMut_dispatches f c ids).1,
      (suspendTasksMut_dispatches f c ids).2⟩
  | resolveTask i => exact ⟨rfl, rfl, rfl, rfl, rfl⟩
  | regState i => exact ⟨rfl, rfl, rfl, rfl, rfl⟩
  | unregState i => exact ⟨rfl, rfl, rfl, rfl, rfl⟩
  | regDelay h d => exact ⟨rfl, rfl, rfl, rfl, rfl⟩
  | unregDelay h => exact ⟨rfl, rfl, rfl, rfl, rfl⟩
  | setStateVal i b => exact ⟨rfl, rfl, rfl, rfl, rfl⟩
  | setParent b => exact ⟨rfl, rfl, rfl, rfl, rfl⟩
  | timerFires => exact ⟨rfl, rfl, rfl, rfl, rfl⟩

/-- A final revealed boundary's effect returns immediately. -/
theorem effectStep_frozen (f : Bool) (c : Cfg) (h : (f && c.hasRevealed) = true) :
    effectStep f c = c := by
  unfold effectStep
  rw [if_pos h]

/-- After a non-frozen effect run, the flag equals the condition or a timer is
pending; the precondition is that a pending timer can only coexist with a
raised flag beforehand. -/
theorem effectStep_establishes (f : Bool) (c : Cfg)
    (hnf : (f && c.hasRevealed) = false)
    (hpre : c.timeout.isSome = true → c.suspended = true) :
    (effectStep f c).suspended = (cond c || (effectStep f c).timeout.isSome) := by
  unfold effectStep
  rw [if_neg (by simp [hnf])]
  by_cases heq : (c.suspended == cond c) = true
  · rw [if_pos heq]
    have hsc : c.suspended = cond c := by simpa using heq
    cases htim : c.timeout with
    | none => simp [htim, hsc]
    | some w =>
      have hs := hpre (by simp [htim])
      have hc : cond c = true := hsc ▸ hs
      simp [htim, hs, hc]
  · rw [if_neg heq]
    by_cases hc : cond c = true
    · rw [if_pos hc]
      simp [hc]
    · have hcf : cond c = false := by simpa using hc
      rw [if_neg (by simp [hcf])]
      have hs : c.suspended = true := by
        cases hsusp : c.suspended with
        | true => rfl
        | false => exact absurd (by simp [hsusp, hcf]) heq
      simp [hs, hcf]

/-- The code invariant is restored by any effect run whose input satisfies
the timer precondition and is not frozen. -/
theorem inv_effect (f : Bool) (c1 : Cfg)
    (hpre : c1.timeout.isSome = true → c1.suspended = true)
    (hfr : (f && c1.hasRevealed) = false) :
    invHolds f (effectStep f c1) = true := by
  unfold invHolds
  rw [if_neg (by rw [effectStep_hasRevealed]; simp [hfr])]
  rw [effectStep_establishes f c1 hfr hpre, cond_effectStep]
  simp

/-- The code invariant is preserved by a frozen effect run. -/
theorem inv_effect_frozen (f : Bool) (c1 : Cfg) (hfr : (f && c1.hasRevealed) = true)
    (hs : c1.suspended = false) (ht : c1.timeout = none) :
    invHolds f (effectStep f c1) = true := by
  rw [effectStep_frozen f c1 hfr]
  unfold invHolds
  rw [if_pos hfr]
  simp [hs, ht]

/-- A state mutation followed by the effect preserves the code invariant. -/
theorem inv_mut_step (f : Bool) (c c1 : Cfg) (h : invHolds f c = true)
    (hs : c1.suspended = c.suspended) (ht : c1.timeout = c.timeout)
    (hr : c1.hasRevealed = c.hasRevealed) :
    invHolds f (effectStep f c1) = true := by
  by_cases hfr : (f && c.hasRevealed) = true
  · have h' : (!c.suspended && c.timeout.isNone) = true := by
      unfold invHolds at h
      rwa [if_pos hfr] at h
    have hs0 : c.suspended = false ∧ c.timeout = none := by
      constructor
      · cases hcs : c.suspended with
        | false => rfl
        | true => rw [hcs] at h'; simp at h'
      · cases hct : c.timeout with
        | none => rfl
        | some w => rw [hct] at h'; simp at h'
    exact inv_effect_frozen f c1 (by rw [hr]; exact hfr) (hs.trans hs0.1) (ht.trans hs0.2)
  · have hfrf : (f && c.hasRevealed) = false := by simpa using hfr
    have heq : c.suspended = (cond c || c.timeout.isSome) := by
      unfold invHolds at h
      rw [if_neg hfr] at h
      simpa using h
    apply inv_effect f c1 ?_ (by rw [hr]; exact hfrf)
    intro hsome
    rw [ht] at hsome
    rw [hs, heq, hsome]
    simp

/-- The code invariant is preserved by every step. -/
theorem inv_step (f : Bool) (c : Cfg) (e : Ev) (h : invHolds f c = true) :
    invHolds f (step f c e) = true := by
  cases e with
  | timerFires =>
    cases htim : c.timeout with
    | none => simpa [step, htim] using h
    | some w =>
      have hstep : step f c Ev.timerFires = effectStep f (timerFire c) := by
        simp [step, htim]
      rw [hstep]
      by_cases hf2 : (f && (timerFire c).hasRevealed) = true
      · exact inv_effect_frozen f _ hf2 rfl rfl
      · exact inv_effect f _ (by intro hsome; simp [timerFire] at hsome)
          (by simpa using hf2)
  | regTasks ids =>
    exact inv_mut_step f c _ h (applyEv_flags f c _).1 (applyEv_flags f c _).2.1
      (applyEv_flags f c _).2.2.1
  | resolveTask i =>
    exact inv_mut_step f c _ h (applyEv_flags f c _).1 (applyEv_flags f c _).2.1
      (applyEv_flags f c _).2.2.1
  | regState i =>
    exact inv_mut_step f c _ h (applyEv_flags f c _).1 (applyEv_flags f c _).2.1
      (applyEv_flags f c _).2.2.1
  | unregState i =>
    exact inv_mut_step f c _ h (applyEv_flags f c _).1 (applyEv_flags f c _).2.1
      (applyEv_flags f c _).2.2.1
  | regDelay hd d =>
    exact inv_mut_step f c _ h (applyEv_flags f c _).1 (applyEv_flags f c _).2.1
      (applyEv_flags f c _).2.2.1
  | unregDelay hd =>
    exact inv_mut_step f c _ h (applyEv_flags f c _).1 (applyEv_flags f c _).2.1
      (applyEv_flags f c _).2.2.1
  | setStateVal i b =>
    exact inv_mut_step f c _ h (applyEv_flags f c _).1 (applyEv_flags f c _).2.1
      (applyEv_flags f c _).2.2.1
  | setParent b =>
    exact inv_mut_step f c _ h (applyEv_flags f c _).1 (applyEv_flags f c _).2.1
      (applyEv_flags f c _).2.2.1

/-- The code invariant is preserved by every run. -/
theorem inv_run (f : Bool) (es : List Ev) : ∀ c : Cfg, invHolds f c = true →
    invHolds f (run f c es) = true := by
  induction es with
  | nil => intro c h; exact h
  | cons e t ih => intro c h; exact ih _ (inv_step f c e h)

/-- Any effect run from a state with no pending timer and no reveal yet
establishes the code invariant. -/
theorem inv_effect_start (f : Bool) (c1 : Cfg) (ht : c1.timeout = none)
    (hr : c1.hasRevealed = false) : invHolds f (effectStep f c1) = true := by
  apply inv_effect f c1 (by intro hsome; rw [ht] at hsome; simp at hsome)
  simp [hr]

/-- Constructor stages leave the timer unarmed. -/
theorem initDelay_timeout (opts : SuspenseOptions) (c : Cfg) :
    (initDelay opts c).timeout = c.timeout := by
  unfold initDelay
  split
  · split <;> rfl
  · rfl

/-- Constructor stages leave the revealed flag down. -/
theorem initDelay_hasRevealed (opts : SuspenseOptions) (c : Cfg) :
    (initDelay opts c).hasRevealed = c.hasRevealed := by
  unfold initDelay
  split
  · split <;> rfl
  · rfl

/-- The predicate registration stage leaves the timer unarmed. -/
theorem initState_timeout (opts : SuspenseOptions) (c : Cfg) :
    (initState opts c).timeout = c.timeout := by
  unfold initState
  split <;> rfl

/-- The predicate registration stage leaves the revealed flag down. -/
theorem initState_hasRevealed (opts : SuspenseOptions) (c : Cfg) :
    (initState opts c).hasRevealed = c.hasRevealed := by
  unfold initState
  split <;> rfl

/-- The constructor establishes the code invariant. -/
theorem inv_init (opts : SuspenseOptions) (sv : List (Nat × Bool)) (p : Bool) :
    invHolds opts.final (initCfg opts sv p) = true := by
  unfold initCfg
  apply inv_effect_start
  · rw [initState_timeout, suspendTasksMut_timeout, initDelay_timeout]
  · rw [initState_hasRevealed, suspendTasksMut_hasRevealed, initDelay_hasRevealed]

/-- Runs compose by concatenation. -/
theorem run_append (f : Bool) (c : Cfg) (es1 es2 : List Ev) :
    run f c (es1 ++ es2) = run f (run f c es1) es2 :=
  List.foldl_append _ _ _ _

/-- A mutation of a frozen (final, revealed) configuration stays frozen
through the effect and dispatches nothing. -/
theorem frozen_mut (c c1 : Cfg) (hr : c.hasRevealed = true) (hs : c.suspended = false)
    (ht : c.timeout = none) (f1 : c1.suspended = c.suspended) (f2 : c1.timeout = c.timeout)
    (f3 : c1.hasRevealed = c.hasRevealed) (f4 : c1.suspendDispatches = c.suspendDispatches) :
    (effectStep true c1).hasRevealed = true ∧ (effectStep true c1).suspended = false
    ∧ (effectStep true c1).timeout = none
    ∧ (effectStep true c1).suspendDispatches = c.suspendDispatches := by
  have hfr : (true && c1.hasRevealed) = true := by simp [f3, hr]
  rw [effectStep_frozen true c1 hfr]
  exact ⟨f3.trans hr, f1.trans hs, f2.trans ht, f4⟩

/-- Every step from a frozen configuration stays frozen and dispatches no
`onSuspend`. -/
theorem step_frozen (c : Cfg) (e : Ev)
    (hr : c.hasRevealed = true) (hs : c.suspended = false) (ht : c.timeout = none) :
    (step true c e).hasRevealed = true ∧ (step true c e).suspended = false
    ∧ (step true c e).timeout = none
    ∧ (step true c e).suspendDispatches = c.suspendDispatches := by
  cases e with
  | timerFires => simp [step, ht, hr, hs]
  | regTasks ids =>
    exact frozen_mut c _ hr hs ht (applyEv_flags true c _).1 (applyEv_flags true c _).2.1
      (applyEv_flags true c _).2.2.1 (applyEv_flags true c _).2.2.2.1
  | resolveTask i =>
    exact frozen_mut c _ hr hs ht (applyEv_flags true c _).1 (applyEv_flags true c _).2.1
      (applyEv_flags true c _).2.2.1 (applyEv_flags true c _).2.2.2.1
  | regState i =>
    exact frozen_mut c _ hr hs ht (applyEv_flags true c _).1 (applyEv_flags true c _).2.1
      (applyEv_flags true c _).2.2.1 (applyEv_flags true c _).2.2.2.1
  | unregState i =>
    exact frozen_mut c _ hr hs ht (applyEv_flags true c _).1 (applyEv_flags true c _).2.1
      (applyEv_flags true c _).2.2.1 (applyEv_flags true c _).2.2.2.1
  | regDelay hd d =>
    exact frozen_mut c _ hr hs ht (applyEv_flags true c _).1 (applyEv_flags true c _).2.1
      (applyEv_flags true c _).2.2.1 (applyEv_flags true c _).2.2.2.1
  | unregDelay hd =>
    exact frozen_mut c _ hr hs ht (applyEv_flags true c _).1 (applyEv_flags true c _).2.1
      (applyEv_flags true c _).2.2.1 (applyEv_flags true c _).2.2.2.1
  | setStateVal i b =>
    exact frozen_mut c _ hr hs ht (applyEv_flags true c _).1 (applyEv_flags true c _).2.1
      (applyEv_flags true c _).2.2.1 (applyEv_flags true c _).2.2.2.1
  | setParent b =>
    exact frozen_mut c _ hr hs ht (applyEv_flags true c _).1 (applyEv_flags true c _).2.1
      (applyEv_flags true c _).2.2.1 (applyEv_flags true c _).2.2.2.1

/-- Every run from a frozen configuration stays frozen and dispatches no
`onSuspend`. -/
theorem frozen_run (es : List Ev) : ∀ c : Cfg, c.hasRevealed = true → c.suspended = false →
    c.timeout = none →
    (run true c es).hasRevealed = true ∧ (run true c es).suspended = false
    ∧ (run true c es).timeout = none
    ∧ (run true c es).suspendDispatches = c.suspendDispatches := by
  induction es with
  | nil => intro c hr hs ht; exact ⟨hr, hs, ht, rfl⟩
  | cons e t ih =>
    intro c hr hs ht
    have h1 := step_frozen c e hr hs ht
    have h2 := ih (step true c e) h1.1 h1.2.1 h1.2.2.1
    exact ⟨h2.1, h2.2.1, h2.2.2.1, h2.2.2.2.trans h1.2.2.2⟩

/-- C2: once a boundary constructed with `final := true` has revealed, every
subsequent sequence of operations — including registering new tasks or
predicates — leaves `suspended()` false and dispatches no `onSuspend`. -/
theorem final_never_resuspends (opts : SuspenseOptions) (sv : List (Nat × Bool)) (p : Bool)
    (es1 es2 : List Ev) (hfinal : opts.final = true)
    (hrev : (run opts.final (initCfg opts sv p) es1).hasRevealed = true) :
    (run opts.final (initCfg opts sv p) (es1 ++ es2)).suspended = false
    ∧ (run opts.final (initCfg opts sv p) (es1 ++ es2)).suspendDispatches
        = (run opts.final (initCfg opts sv p) es1).suspendDispatches := by
  have hinv := inv_run opts.final es1 _ (inv_init opts sv p)
  rw [hfinal] at hinv hrev ⊢
  unfold invHolds at hinv
  rw [if_pos (by simp [hrev])] at hinv
  have hflags : (run true (initCfg opts sv p) es1).suspended = false
      ∧ (run true (initCfg opts sv p) es1).timeout = none := by
    constructor
    · cases hcs : (run true (initCfg opts sv p) es1).suspended with
      | false => rfl
      | true => rw [hcs] at hinv; simp at hinv
    · cases hct : (run true (initCfg opts sv p) es1).timeout with
      | none => rfl
      | some w => rw [hct] at hinv; simp at hinv
  rw [run_append]
  have h := frozen_run es2 _ hrev hflags.1 hflags.2
  exact ⟨h.2.1, h.2.2.2⟩

/-- Witness for C2: a final boundary that revealed through its settle timer
stays revealed while a task and a true predicate are registered afterwards. -/
theorem final_never_resuspends_witness :
    (run (true : Bool) (initCfg { final := true } [] false)
      ([Ev.timerFires] ++ [Ev.regTasks [3], Ev.regState 5, Ev.setStateVal 5 true])).suspended
      = false :=
  (final_never_resuspends { final := true } [] false [Ev.timerFires]
    [Ev.regTasks [3], Ev.regState 5, Ev.setStateVal 5 true] rfl (by decide)).1

/-- C1 amended: in every reachable configuration, the suspended flag is true
exactly when some pending task exists, some registered predicate evaluates
true, or the parent boundary is suspended — modulo the settle-delay window
(the flag may stay up while the reveal timer is pending) — except that once a
`final` boundary has revealed, the flag stays down regardless of the
condition. -/
theorem suspended_tracks_condition (opts : SuspenseOptions) (sv : List (Nat × Bool))
    (p : Bool) (es : List Ev) :
    claimInv (run opts.final (initCfg opts sv p) es) = true
    ∨ (opts.final = true ∧ (run opts.final (initCfg opts sv p) es).hasRevealed = true
        ∧ (run opts.final (initCfg opts sv p) es).suspended = false
        ∧ (run opts.final (initCfg opts sv p) es).timeout = none) := by
  have hinv := inv_run opts.final es _ (inv_init opts sv p)
  unfold invHolds at hinv
  by_cases hfr : (opts.final && (run opts.final (initCfg opts sv p) es).hasRevealed) = true
  · right
    rw [if_pos hfr] at hinv
    have h1 : opts.final = true
        ∧ (run opts.final (initCfg opts sv p) es).hasRevealed = true := by simpa using hfr
    refine ⟨h1.1, h1.2, ?_, ?_⟩
    · cases hcs : (run opts.final (initCfg opts sv p) es).suspended with
      | false => rfl
      | true => rw [hcs] at hinv; simp at hinv
    · cases hct : (run opts.final (initCfg opts sv p) es).timeout with
      | none => rfl
      | some w => rw [hct] at hinv; simp at hinv
  · left
    rw [if_neg hfr] at hinv
    exact hinv

/-- Counterexample to C1 as stated: a `final` boundary that has revealed and
then receives a predicate currently evaluating true has `suspended() = false`
although the aggregate condition is true and no settle timer is pending. -/
theorem suspended_tracks_condition_counterexample :
    claimInv (run (true : Bool) (initCfg { final := true } [] false)
      [Ev.timerFires, Ev.regState 7, Ev.setStateVal 7 true]) = false := by
  decide

/-- C8 at the failing input: a non-final boundary with a registered settle
delay of `2` seconds arms its reveal timer with a `2000` ms wait; when a task
is registered before the timer elapses, the timer stays armed instead of
being cancelled (the effect returns early because the flag did not change),
and when it then fires, the boundary reveals — `hasRevealed` is set and
`onReveal` dispatched — and immediately re-suspends. -/
theorem settle_timer_not_cancelled :
    (initCfg { suspendDelay := some 2 } [] false).timeout = some ((2 : ℚ) * 1000)
    ∧ (run false (initCfg { suspendDelay := some 2 } [] false) [Ev.regTasks [1]]).timeout
        = some ((2 : ℚ) * 1000)
    ∧ cond (run false (initCfg { suspendDelay := some 2 } [] false) [Ev.regTasks [1]]) = true
    ∧ (run false (initCfg { suspendDelay := some 2 } [] false)
        [Ev.regTasks [1], Ev.timerFires]).hasRevealed = true
    ∧ (run false (initCfg { suspendDelay := some 2 } [] false)
        [Ev.regTasks [1], Ev.timerFires]).revealDispatches = 1
    ∧ (run false (initCfg { suspendDelay := some 2 } [] false)
        [Ev.regTasks [1], Ev.timerFires]).suspended = true := by
  refine ⟨rfl, rfl, by decide, by decide, by decide, by decide⟩

/-- Registering delays under fresh distinct holders appends them in order. -/
theorem run_regDelays (f : Bool) (ds : List (Nat × ℚ)) : ∀ c : Cfg,
    (∀ d ∈ ds, d.1 ∉ c.pendingDelays.map Prod.fst) → (ds.map Prod.fst).Nodup →
    (run f c (ds.map (fun d => Ev.regDelay d.1 d.2))).pendingDelays
      = c.pendingDelays ++ ds := by
  induction ds with
  | nil => intro c _ _; simp [run]
  | cons d t ih =>
    intro c hfresh hnodup
    have hd : d.1 ∉ c.pendingDelays.map Prod.fst := hfresh d (by simp)
    have hany : (c.pendingDelays.any (fun p => p.1 == d.1)) = false := by
      rw [List.any_eq_false]
      intro p hp
      simp only [beq_iff_eq]
      intro heq
      exact hd (heq ▸ List.mem_map_of_mem Prod.fst hp)
    have hstep : (step f c (Ev.regDelay d.1 d.2)).pendingDelays
        = c.pendingDelays ++ [(d.1, d.2)] := by
      show (effectStep f (suspendDelayMut c d.1 d.2)).pendingDelays = _
      rw [effectStep_pendingDelays]
      show kmapSet c.pendingDelays d.1 d.2 = _
      unfold kmapSet
      rw [if_neg (by simp [hany])]
    have hn : ((d.1 :: t.map Prod.fst)).Nodup := by simpa using hnodup
    have hrec := ih (step f c (Ev.regDelay d.1 d.2))
      (by
        intro e he
        rw [hstep, List.map_append]
        simp only [List.mem_append, List.map_cons, List.map_nil, List.mem_singleton]
        push_neg
        refine ⟨hfresh e (by simp [he]), ?_⟩
        intro heq
        exact (List.nodup_cons.mp hn).1 (heq ▸ List.mem_map_of_mem Prod.fst he))
      (List.nodup_cons.mp hn).2
    show (run f (step f c (Ev.regDelay d.1 d.2)) (t.map (fun d => Ev.regDelay d.1 d.2))).pendingDelays
        = c.pendingDelays ++ d :: t
    rw [hrec, hstep, List.append_assoc, List.singleton_append]

/-- C10: on every transition to revealed the registered settle delays are
cleared; consequently, after a reveal the next scheduled wait (`_getDelay`)
is computed from exactly the delays registered after that reveal —
`Math.max(0) * 1000` when none are re-registered. -/
theorem reveal_resets_delays (f : Bool) (c : Cfg) (w : ℚ) (hw : c.timeout = some w)
    (ds : List (Nat × ℚ)) (hnodup : (ds.map Prod.fst).Nodup) :
    (step f c Ev.timerFires).pendingDelays = []
    ∧ (step f c Ev.timerFires).hasRevealed = true
    ∧ getDelay (step f c Ev.timerFires) = 0 * 1000
    ∧ (run f (step f c Ev.timerFires) (ds.map (fun d => Ev.regDelay d.1 d.2))).pendingDelays = ds
    ∧ getDelay (run f (step f c Ev.timerFires) (ds.map (fun d => Ev.regDelay d.1 d.2)))
        = ((ds.map Prod.snd).foldl qmax 0) * 1000 := by
  have hstep : step f c Ev.timerFires = effectStep f (timerFire c) := by
    simp [step, hw]
  have h1 : (step f c Ev.timerFires).pendingDelays = [] := by
    rw [hstep, effectStep_pendingDelays]
    rfl
  have h2 : (step f c Ev.timerFires).hasRevealed = true := by
    rw [hstep, effectStep_hasRevealed]
    rfl
  have h4 : (run f (step f c Ev.timerFires) (ds.map (fun d => Ev.regDelay d.1 d.2))).pendingDelays
      = ds := by
    have hr := run_regDelays f ds (step f c Ev.timerFires)
      (by rw [h1]; intro d _ hmem; simp at hmem) hnodup
    rw [h1] at hr
    simpa using hr
  refine ⟨h1, h2, ?_, h4, ?_⟩
  · unfold getDelay
    rw [h1]
    rfl
  · unfold getDelay
    rw [h4]

/-- Witness for C10 at a boundary whose timer armed with a 2-second delay. -/
theorem reveal_resets_delays_witness :
    (step false (initCfg { suspendDelay := some 2 } [] false) Ev.timerFires).pendingDelays
      = [] :=
  (reveal_resets_delays false (initCfg { suspendDelay := some 2 } [] false)
    ((2 : ℚ) * 1000) rfl [(1, 3), (2, 1/2)] (by decide)).1

/-- Number of tasks registered over a trace, counting every batch entry. -/
def countRegistered : List Ev → Nat
  | [] => 0
  | Ev.regTasks ids :: es => ids.length + countRegistered es
  | _ :: es => countRegistered es

/-- Number of task resolutions over a trace. -/
def countResolved : List Ev → Nat
  | [] => 0
  | Ev.resolveTask _ :: es => 1 + countResolved es
  | _ :: es => countResolved es

/-- The task identifiers registered by one event. -/
def regIds : Ev → List Nat
  | Ev.regTasks ids => ids
  | _ => []

/-- Well-formedness of a trace replayed from a configuration: task batches are
registered only while the boundary is suspended (and not blocked by a final
reveal), with distinct identifiers never seen before, and only currently
pending tasks resolve — which is how promises behave (a promise is a fresh
object and settles once, after registration). -/
def wfTrace (f : Bool) : Cfg → List Nat → List Ev → Bool
  | _, _, [] => true
  | c, seen, e :: es =>
    (match e with
     | Ev.regTasks ids =>
       c.suspended && (!f || !c.hasRevealed) && decide ids.Nodup
         && ids.all (fun i => !(seen.contains i))
     | Ev.resolveTask i => c.pendingTasks.contains i
     | _ => true)
    && wfTrace f (step f c e) (seen ++ regIds e) es

/-- All events other than task registration and resolution leave the pending
task set and the total counter unchanged. -/
theorem step_tasks_const (f : Bool) (c : Cfg) (e : Ev)
    (hr : ∀ ids, e ≠ Ev.regTasks ids) (hv : ∀ i, e ≠ Ev.resolveTask i) :
    (step f c e).pendingTasks = c.pendingTasks
    ∧ (step f c e).totalTaskCount = c.totalTaskCount := by
  cases e with
  | regTasks ids => exact absurd rfl (hr ids)
  | resolveTask i => exact absurd rfl (hv i)
  | timerFires =>
    cases ht : c.timeout with
    | none => simp [step, ht]
    | some w =>
      have hs : step f c Ev.timerFires = effectStep f (timerFire c) := by simp [step, ht]
      rw [hs, effectStep_pendingTasks, effectStep_totalTaskCount]
      exact ⟨rfl, rfl⟩
  | regState i => exact ⟨effectStep_pendingTasks f _, effectStep_totalTaskCount f _⟩
  | unregState i => exact ⟨effectStep_pendingTasks f _, effectStep_totalTaskCount f _⟩
  | regDelay hd d => exact ⟨effectStep_pendingTasks f _, effectStep_totalTaskCount f _⟩
  | unregDelay hd => exact ⟨effectStep_pendingTasks f _, effectStep_totalTaskCount f _⟩
  | setStateVal i b => exact ⟨effectStep_pendingTasks f _, effectStep_totalTaskCount f _⟩
  | setParent b => exact ⟨effectStep_pendingTasks f _, effectStep_totalTaskCount f _⟩

/-- Task accounting along any well-formed trace: the total counter accumulates
every registered batch, and the pending set grows by registrations and
shrinks by resolutions. -/
theorem tasks_accounting (f : Bool) (es : List Ev) : ∀ (c : Cfg) (seen : List Nat),
    c.pendingTasks.Nodup → (∀ i ∈ c.pendingTasks, i ∈ seen) →
    wfTrace f c seen es = true →
    (run f c es).totalTaskCount = c.totalTaskCount + countRegistered es
    ∧ (run f c es).pendingTasks.length + countResolved es
        = c.pendingTasks.length + countRegistered es := by
  induction es with
  | nil =>
    intro c seen _ _ _
    constructor
    · show c.totalTaskCount = c.totalTaskCount + 0
      omega
    · show c.pendingTasks.length + 0 = c.pendingTasks.length + 0
      rfl
  | cons e t ih =>
    intro c seen hnd hsub hwf
    simp only [wfTrace, Bool.and_eq_true] at hwf
    obtain ⟨hchk, hrest⟩ := hwf
    cases e with
    | regTasks ids =>
      have hchk' : ((c.suspended && (!f || !c.hasRevealed) && decide ids.Nodup)
          && ids.all (fun i => !(seen.contains i))) = true := hchk
      simp only [Bool.and_eq_true, decide_eq_true_eq, List.all_eq_true] at hchk'
      obtain ⟨⟨⟨hsusp, hguard⟩, hnodup⟩, hall⟩ := hchk'
      have hfreshseen : ∀ i ∈ ids, i ∉ seen := by
        intro i hi hmem
        have h2 := hall i hi
        simp [hmem] at h2
      have hfreshpend : ∀ i ∈ ids, i ∉ c.pendingTasks := by
        intro i hi hmem
        exact hfreshseen i hi (hsub i hmem)
      have hmut : applyEv f c (Ev.regTasks ids) = addTasks c ids := by
        show suspendTasksMut f c ids = addTasks c ids
        unfold suspendTasksMut
        rw [if_pos hguard]
        simp [hsusp]
      have hpend : (step f c (Ev.regTasks ids)).pendingTasks
          = c.pendingTasks ++ ids := by
        show (effectStep f (applyEv f c (Ev.regTasks ids))).pendingTasks = _
        rw [effectStep_pendingTasks, hmut]
        exact addTasks_pending ids c hfreshpend hnodup
      have htot : (step f c (Ev.regTasks ids)).totalTaskCount
          = c.totalTaskCount + ids.length := by
        show (effectStep f (applyEv f c (Ev.regTasks ids))).totalTaskCount = _
        rw [effectStep_totalTaskCount, hmut]
        exact addTasks_total ids c
      have hrest' : wfTrace f (step f c (Ev.regTasks ids)) (seen ++ ids) t = true := hrest
      have hnd' : (step f c (Ev.regTasks ids)).pendingTasks.Nodup := by
        rw [hpend, List.nodup_append]
        refine ⟨hnd, hnodup, ?_⟩
        intro a ha hb
        exact hfreshpend a hb ha
      have hsub' : ∀ i ∈ (step f c (Ev.regTasks ids)).pendingTasks, i ∈ seen ++ ids := by
        rw [hpend]
        intro i hi
        rw [List.mem_append] at hi
        rw [List.mem_append]
        cases hi with
        | inl h => exact Or.inl (hsub i h)
        | inr h => exact Or.inr h
      obtain ⟨ih1, ih2⟩ := ih (step f c (Ev.regTasks ids)) (seen ++ ids) hnd' hsub' hrest'
      constructor
      · show (run f (step f c (Ev.regTasks ids)) t).totalTaskCount
            = c.totalTaskCount + countRegistered (Ev.regTasks ids :: t)
        rw [ih1, htot]
        show c.totalTaskCount + ids.length + countRegistered t
            = c.totalTaskCount + (ids.length + countRegistered t)
        omega
      · show (run f (step f c (Ev.regTasks ids)) t).pendingTasks.length
            + countResolved (Ev.regTasks ids :: t)
            = c.pendingTasks.length + countRegistered (Ev.regTasks ids :: t)
        have hlen : (step f c (Ev.regTasks ids)).pendingTasks.length
            = c.pendingTasks.length + ids.length := by
          rw [hpend, List.length_append]
        rw [hlen] at ih2
        show (run f (step f c (Ev.regTasks ids)) t).pendingTasks.length + countResolved t
            = c.pendingTasks.length + (ids.length + countRegistered t)
        omega
    | resolveTask i =>
      have hchk' : c.pendingTasks.contains i = true := hchk
      have hi : i ∈ c.pendingTasks := by
        simpa using hchk'
      have hpend : (step f c (Ev.resolveTask i)).pendingTasks
          = c.pendingTasks.erase i := by
        show (effectStep f (unsuspendTaskMut c i)).pendingTasks = _
        rw [effectStep_pendingTasks]
        rfl
      have htot : (step f c (Ev.resolveTask i)).totalTaskCount = c.totalTaskCount := by
        show (effectStep f (unsuspendTaskMut c i)).totalTaskCount = _
        rw [effectStep_totalTaskCount]
        rfl
      have hrest' : wfTrace f (step f c (Ev.resolveTask i)) seen t = true := by
        simpa [regIds] using hrest
      have hnd' : (step f c (Ev.resolveTask i)).pendingTasks.Nodup := by
        rw [hpend]
        exact hnd.erase i
      have hsub' : ∀ j ∈ (step f c (Ev.resolveTask i)).pendingTasks, j ∈ seen := by
        rw [hpend]
        intro j hj
        exact hsub j (List.mem_of_mem_erase hj)
      obtain ⟨ih1, ih2⟩ := ih (step f c (Ev.resolveTask i)) seen hnd' hsub' hrest'
      have hlen : (step f c (Ev.resolveTask i)).pendingTasks.length
          = c.pendingTasks.length - 1 := by
        rw [hpend]
        exact List.length_erase_of_mem hi
      have hpos : 0 < c.pendingTasks.length := List.length_pos.mpr (List.ne_nil_of_mem hi)
      constructor
      · show (run f (step f c (Ev.resolveTask i)) t).totalTaskCount
            = c.totalTaskCount + countRegistered (Ev.resolveTask i :: t)
        rw [ih1, htot]
        rfl
      · show (run f (step f c (Ev.resolveTask i)) t).pendingTasks.length
            + (1 + countResolved t)
            = c.pendingTasks.length + countRegistered t
        rw [hlen] at ih2
        omega
    | regState j =>
      have hconst := step_tasks_const f c (Ev.regState j)
        (fun _ h => Ev.noConfusion h) (fun _ h => Ev.noConfusion h)
      have hrest' : wfTrace f (step f c (Ev.regState j)) seen t = true := by
        simpa [regIds] using hrest
      obtain ⟨ih1, ih2⟩ := ih (step f c (Ev.regState j)) seen
        (by rw [hconst.1]; exact hnd) (by rw [hconst.1]; exact hsub) hrest'
      constructor
      · show (run f (step f c (Ev.regState j)) t).totalTaskCount
            = c.totalTaskCount + countRegistered (Ev.regState j :: t)
        rw [ih1, hconst.2]
        rfl
      · show (run f (step f c (Ev.regState j)) t).pendingTasks.length + countResolved t
            = c.pendingTasks.length + countRegistered t
        rw [hconst.1] at ih2
        exact ih2
    | unregState j =>
      have hconst := step_tasks_const f c (Ev.unregState j)
        (fun _ h => Ev.noConfusion h) (fun _ h => Ev.noConfusion h)
      have hrest' : wfTrace f (step f c (Ev.unregState j)) seen t = true := by
        simpa [regIds] using hrest
      obtain ⟨ih1, ih2⟩ := ih (step f c (Ev.unregState j)) seen
        (by rw [hconst.1]; exact hnd) (by rw [hconst.1]; exact hsub) hrest'
      constructor
      · show (run f (step f c (Ev.unregState j)) t).totalTaskCount
            = c.totalTaskCount + countRegistered (Ev.unregState j :: t)
        rw [ih1, hconst.2]
        rfl
      · show (run f (step f c (Ev.unregState j)) t).pendingTasks.length + countResolved t
            = c.pendingTasks.length + countRegistered t
        rw [hconst.1] at ih2
        exact ih2
    | regDelay hdl d =>
      have hconst := step_tasks_const f c (Ev.regDelay hdl d)
        (fun _ h => Ev.noConfusion h) (fun _ h => Ev.noConfusion h)
      have hrest' : wfTrace f (step f c (Ev.regDelay hdl d)) seen t = true := by
        simpa [regIds] using hrest
      obtain ⟨ih1, ih2⟩ := ih (step f c (Ev.regDelay hdl d)) seen
        (by rw [hconst.1]; exact hnd) (by rw [hconst.1]; exact hsub) hrest'
      constructor
      · show (run f (step f c (Ev.regDelay hdl d)) t).totalTaskCount
            = c.totalTaskCount + countRegistered (Ev.regDelay hdl d :: t)
        rw [ih1, hconst.2]
        rfl
      · show (run f (step f c (Ev.regDelay hdl d)) t).pendingTasks.length + countResolved t
            = c.pendingTasks.length + countRegistered t
        rw [hconst.1] at ih2
        exact ih2
    | unregDelay hdl =>
      have hconst := step_tasks_const f c (Ev.unregDelay hdl)
        (fun _ h => Ev.noConfusion h) (fun _ h => Ev.noConfusion h)
      have hrest' : wfTrace f (step f c (Ev.unregDelay hdl)) seen t = true := by
        simpa [regIds] using hrest
      obtain ⟨ih1, ih2⟩ := ih (step f c (Ev.unregDelay hdl)) seen
        (by rw [hconst.1]; exact hnd) (by rw [hconst.1]; exact hsub) hrest'
      constructor
      · show (run f (step f c (Ev.unregDelay hdl)) t).totalTaskCount
            = c.totalTaskCount + countRegistered (Ev.unregDelay hdl :: t)
        rw [ih1, hconst.2]
        rfl
      · show (run f (step f c (Ev.unregDelay hdl)) t).pendingTasks.length + countResolved t
            = c.pendingTasks.length + countRegistered t
        rw [hconst.1] at ih2
        exact ih2
    | setStateVal j b =>
      have hconst := step_tasks_const f c (Ev.setStateVal j b)
        (fun _ h => Ev.noConfusion h) (fun _ h => Ev.noConfusion h)
      have hrest' : wfTrace f (step f c (Ev.setStateVal j b)) seen t = true := by
        simpa [regIds] using hrest
      obtain ⟨ih1, ih2⟩ := ih (step f c (Ev.setStateVal j b)) seen
        (by rw [hconst.1]; exact hnd) (by rw [hconst.1]; exact hsub) hrest'
      constructor
      · show (run f (step f c (Ev.setStateVal j b)) t).totalTaskCount
            = c.totalTaskCount + countRegistered (Ev.setStateVal j b :: t)
        rw [ih1, hconst.2]
        rfl
      · show (run f (step f c (Ev.setStateVal j b)) t).pendingTasks.length + countResolved t
            = c.pendingTasks.length + countRegistered t
        rw [hconst.1] at ih2
        exact ih2
    | setParent b =>
      have hconst := step_tasks_const f c (Ev.setParent b)
        (fun _ h => Ev.noConfusion h) (fun _ h => Ev.noConfusion h)
      have hrest' : wfTrace f (step f c (Ev.setParent b)) seen t = true := by
        simpa [regIds] using hrest
      obtain ⟨ih1, ih2⟩ := ih (step f c (Ev.setParent b)) seen
        (by rw [hconst.1]; exact hnd) (by rw [hconst.1]; exact hsub) hrest'
      constructor
      · show (run f (step f c (Ev.setParent b)) t).totalTaskCount
            = c.totalTaskCount + countRegistered (Ev.setParent b :: t)
        rw [ih1, hconst.2]
        rfl
      · show (run f (step f c (Ev.setParent b)) t).pendingTasks.length + countResolved t
            = c.pendingTasks.length + countRegistered t
        rw [hconst.1] at ih2
        exact ih2
    | timerFires =>
      have hconst := step_tasks_const f c Ev.timerFires
        (fun _ h => Ev.noConfusion h) (fun _ h => Ev.noConfusion h)
      have hrest' : wfTrace f (step f c Ev.timerFires) seen t = true := by
        simpa [regIds] using hrest
      obtain ⟨ih1, ih2⟩ := ih (step f c Ev.timerFires) seen
        (by rw [hconst.1]; exact hnd) (by rw [hconst.1]; exact hsub) hrest'
      constructor
      · show (run f (step f c Ev.timerFires) t).totalTaskCount
            = c.totalTaskCount + countRegistered (Ev.timerFires :: t)
        rw [ih1, hconst.2]
        rfl
      · show (run f (step f c Ev.timerFires) t).pendingTasks.length + countResolved t
            = c.pendingTasks.length + countRegistered t
        rw [hconst.1] at ih2
        exact ih2

/-- The constructor with no options yields an empty pending task set. -/
theorem initCfg_blank_pendingTasks :
    (initCfg {} [] false).pendingTasks = [] := by
  show (effectStep false _).pendingTasks = []
  rw [effectStep_pendingTasks]
  rfl

/-- The constructor with no options yields a zero total counter. -/
theorem initCfg_blank_totalTaskCount :
    (initCfg {} [] false).totalTaskCount = 0 := by
  show (effectStep false _).totalTaskCount = 0
  rw [effectStep_totalTaskCount]
  rfl

/-- Counterexample to C9 as stated: after one task registers and resolves,
the boundary reveals, and a second task registers, `totalTaskCount` is `1`
although two tasks were ever registered — the counter was reset by the
registration made while the boundary was unsuspended. -/
theorem total_task_count_counterexample :
    (run false (initCfg {} [] false)
      [Ev.regTasks [1], Ev.resolveTask 1, Ev.timerFires, Ev.regTasks [2]]).totalTaskCount
      ≠ countRegistered [Ev.regTasks [1], Ev.resolveTask 1, Ev.timerFires, Ev.regTasks [2]] := by
  decide

/-- C9 amended: `pendingTaskCount` equals the number of still-unresolved
registered tasks and `resolvedTaskCount` equals `totalTaskCount` minus
`pendingTaskCount` throughout; `totalTaskCount` equals the number of tasks
ever registered provided every registration occurs while the boundary is
suspended — a batch registered while the boundary is unsuspended instead
resets the counter to that batch's size. -/
theorem task_counters (es : List Ev)
    (hwf : wfTrace false (initCfg {} [] false) [] es = true) :
    (run false (initCfg {} [] false) es).totalTaskCount = countRegistered es
    ∧ (run false (initCfg {} [] false) es).pendingTasks.length
        = countRegistered es - countResolved es
    ∧ resolvedTaskCount (run false (initCfg {} [] false) es) = countResolved es
    ∧ ∀ (c : Cfg) (ids : List Nat), c.suspended = false →
        (suspendTasksMut false c ids).totalTaskCount = ids.length := by
  obtain ⟨h1, h2⟩ := tasks_accounting false es (initCfg {} [] false) []
    (by rw [initCfg_blank_pendingTasks]; exact List.nodup_nil)
    (by rw [initCfg_blank_pendingTasks]; intro i h; simp at h)
    hwf
  rw [initCfg_blank_totalTaskCount] at h1
  rw [initCfg_blank_pendingTasks] at h2
  simp only [List.length_nil, Nat.zero_add] at h1 h2
  refine ⟨h1, by omega, ?_, ?_⟩
  · unfold resolvedTaskCount
    rw [h1]
    omega
  · intro c ids hcs
    unfold suspendTasksMut
    rw [if_pos (by simp)]
    have hreset : (if !c.suspended then { c with totalTaskCount := 0 } else c)
        = { c with totalTaskCount := 0 } := by
      rw [if_pos (by simp [hcs])]
    rw [hreset, addTasks_total]
    show 0 + ids.length = ids.length
    omega

/-- Witness for C9 amended: two tasks registered while suspended, one
resolving, yield `totalTaskCount = 2`. -/
theorem task_counters_witness :
    (run false (initCfg {} [] false)
      [Ev.regTasks [1, 2], Ev.resolveTask 1]).totalTaskCount
      = countRegistered [Ev.regTasks [1, 2], Ev.resolveTask 1] :=
  (task_counters [Ev.regTasks [1, 2], Ev.resolveTask 1] (by decide)).1

end Suspense
